import Mathlib

/-!
Shallow embedding of the repository's two core modules:

* `src/python/sql_generate_utils.py` — a declarative JSON-to-SQL process
  compiler (namespace `SqlGen`); expression/condition trees are modelled as
  the closed tagged unions the JSON documents encode, and every compiling
  function returns `Except String _` mirroring Python's raised `ValueError`s
  (`.error msg` = the exception's message, `.ok sql` = the returned text).
* `src/python/schema_utils.py` — schema-driven type coercion and validation
  over pandas DataFrames (namespace `SchemaUtils`); a DataFrame is modelled
  as an ordered association list of named series, a series as a dtype tag
  plus a list of optional (nullable) cells.

All definitions are translated from the Python source, statement by
statement; deviations forced by the embedding (e.g. numeric parsing is
modelled over integers, a compiled regex is modelled by its matching
predicate) are noted at the definition they concern.
-/

/-- Python `str.upper` on the ASCII strings these documents contain,
written over the character list so that concrete instances reduce in the
kernel. -/
def pyUpper (s : String) : String :=
  ⟨s.data.map Char.toUpper⟩

/-- Python whitespace stripped by `str.strip()` (ASCII part). -/
def isPySpace (c : Char) : Bool :=
  c = ' ' || c = '\t' || c = '\n' || c = '\r' || c = '\x0b' || c = '\x0c'

/-- Python `str.strip()`: drop whitespace from both ends. -/
def pyStrip (s : String) : String :=
  ⟨((s.data.dropWhile isPySpace).reverse.dropWhile isPySpace).reverse⟩

/-- Python `str.replace(c, cc)` for a one-character pattern replaced by its
doubling (the only use of `replace` in the source: quote escaping). -/
def doubleChar (c : Char) (s : String) : String :=
  ⟨(s.data.map (fun x => if x = c then [c, c] else [x])).flatten⟩

namespace SqlGen

/-- Literal values as they appear in a parsed process JSON document. -/
inductive Lit
  | lnull
  | lint (n : Int)
  | lstr (s : String)
deriving DecidableEq

/-- Embeds `_q_ident`: quote an identifier with double quotes, doubling any
embedded double quote. -/
def _q_ident (name : String) : String :=
  "\"" ++ (doubleChar (Char.ofNat 34) name) ++ "\""

/-- Embeds `_lit`: render a literal — `None` becomes the keyword `NULL`,
numbers are emitted unquoted, strings are single-quoted with embedded
single quotes doubled. -/
def _lit : Lit → String
  | .lnull => "NULL"
  | .lint n => toString n
  | .lstr s => "\x27" ++ (doubleChar (Char.ofNat 39) s) ++ "\x27"

/-- Embeds `_ALLOWED_AGG_FUNCS` (a Python set, used only for membership). -/
def _ALLOWED_AGG_FUNCS : List String := ["SUM", "COUNT", "AVG", "MIN", "MAX"]

/-- Embeds `_ALLOWED_SCALAR_FUNCS`. -/
def _ALLOWED_SCALAR_FUNCS : List String :=
  ["COALESCE", "ABS", "ROUND", "FLOOR", "CEIL", "NULLIF"]

/-- Embeds `_ALLOWED_FUNCS = _ALLOWED_AGG_FUNCS | _ALLOWED_SCALAR_FUNCS`. -/
def _ALLOWED_FUNCS : List String := _ALLOWED_AGG_FUNCS ++ _ALLOWED_SCALAR_FUNCS

/-- Embeds `_ALLOWED_OPS`. -/
def _ALLOWED_OPS : List String :=
  ["=", "!=", "<", ">", "<=", ">=", "IN", "NOT IN", "LIKE", "BETWEEN",
   "IS NULL", "IS NOT NULL"]

/-- Value attached to a condition node: the JSON `value` key may be absent
(Python `cond.get("value")` returning `None`), a scalar literal, or a list. -/
inductive CondVal
  | cnone
  | clit (v : Lit)
  | clist (vs : List Lit)
deriving DecidableEq

/-- Condition tree handled by `_build_condition`: `all` (AND), `any` (OR),
`not`, or a simple `{column, op, value}` comparison. -/
inductive Cond
  | allC (cs : List Cond)
  | anyC (cs : List Cond)
  | notC (c : Cond)
  | cmp (column : String) (op : String) (value : CondVal)

/-- Python `str()` of a condition value, used in the `IN requires list`
error message (f-string rendering; strings are rendered bare by `str`). -/
def condValStr : CondVal → String
  | .cnone => "None"
  | .clit (.lnull) => "None"
  | .clit (.lint n) => toString n
  | .clit (.lstr s) => s
  | .clist vs =>
      "[" ++ String.intercalate ", "
        (vs.map fun v => match v with
          | .lnull => "None"
          | .lint n => toString n
          | .lstr s => "\x27" ++ s ++ "\x27") ++ "]"

/-- Scalar literal a non-IN/BETWEEN comparison renders: an absent `value`
is Python `None` which `_lit` renders as `NULL`; a list value is out of the
parsed model (a JSON list under `value` for a plain comparison) and is
rendered through `condValStr` like Python's `str`. -/
def condValLit : CondVal → String
  | .cnone => _lit .lnull
  | .clit v => _lit v
  | .clist vs => _lit (.lstr (condValStr (.clist vs)))

mutual

/-- Embeds `_build_condition`: convert a condition tree to SQL text.
Errors (`raise ValueError`) become `.error`. Note the operator is
upper-cased but NOT checked against `_ALLOWED_OPS` here. -/
def _build_condition : Cond → Except String String
  | .allC cs =>
      match condParts cs with
      | .error m => .error m
      | .ok parts => .ok ("(" ++ String.intercalate " AND " parts ++ ")")
  | .anyC cs =>
      match condParts cs with
      | .error m => .error m
      | .ok parts => .ok ("(" ++ String.intercalate " OR " parts ++ ")")
  | .notC c =>
      match _build_condition c with
      | .error m => .error m
      | .ok s => .ok ("(NOT " ++ s ++ ")")
  | .cmp column opRaw value =>
      let col := _q_ident column
      let op := pyUpper opRaw
      if op = "IS NULL" ∨ op = "IS NOT NULL" then
        .ok (col ++ " " ++ op)
      else if op = "IN" ∨ op = "NOT IN" then
        match value with
        | .clist vs =>
            .ok (col ++ " " ++ op ++ " (" ++
                 String.intercalate ", " (vs.map _lit) ++ ")")
        | v => .error (op ++ " requires list value: " ++ condValStr v)
      else if op = "BETWEEN" then
        match value with
        | .clist [lo, hi] =>
            .ok (col ++ " BETWEEN " ++ _lit lo ++ " AND " ++ _lit hi)
        | _ => .error "cannot unpack BETWEEN value"
      else
        .ok (col ++ " " ++ op ++ " " ++ condValLit value)

/-- Sequential compilation of a list of conditions (the generator feeding
`" AND ".join` / `" OR ".join`); the first raised error aborts. -/
def condParts : List Cond → Except String (List String)
  | [] => .ok []
  | c :: cs =>
      match _build_condition c with
      | .error m => .error m
      | .ok s =>
          match condParts cs with
          | .error m => .error m
          | .ok rest => .ok (s :: rest)

end

/-- Expression tree handled by `_build_expr` (the tagged shapes the JSON
encodes: a bare string, `col`, `val`, `ref`, `fn`, binary `op`, `case`). -/
inductive Expr
  | bare (s : String)
  | col (c : String)
  | val (v : Lit)
  | ref (name : String)
  | fn (name : String) (args : List Expr)
  | bop (op : String) (l r : Expr)
  | caseE (whens : List (Cond × Expr)) (elseE : Option Expr)

mutual

/-- Embeds `_build_expr`: expand an expression tree to SQL, resolving
`ref` nodes against `in_scope` (a Python set used only for membership,
modelled as a list) and checking `fn` names against `_ALLOWED_FUNCS`. -/
def _build_expr : Expr → List String → Except String String
  | .bare s, _ => .ok (_q_ident s)
  | .col c, _ => .ok (_q_ident c)
  | .val v, _ => .ok (_lit v)
  | .ref name, in_scope =>
      if name ∈ in_scope then .ok (_q_ident name)
      else .error ("Undefined ref: " ++ name)
  | .fn name args, in_scope =>
      let f := pyUpper name
      if f ∈ _ALLOWED_FUNCS then
        match exprArgs args in_scope with
        | .error m => .error m
        | .ok parts => .ok (f ++ "(" ++ String.intercalate ", " parts ++ ")")
      else .error ("Unsupported function: " ++ f)
  | .bop o l r, in_scope =>
      match _build_expr l in_scope with
      | .error m => .error m
      | .ok ls =>
          match _build_expr r in_scope with
          | .error m => .error m
          | .ok rs => .ok ("(" ++ ls ++ " " ++ o ++ " " ++ rs ++ ")")
  | .caseE whens elseE, in_scope =>
      match whenParts whens in_scope with
      | .error m => .error m
      | .ok ws =>
          match (match elseE with
                 | some ee =>
                     match _build_expr ee in_scope with
                     | .error m => .error m
                     | .ok es => .ok (" ELSE " ++ es)
                 | none => .ok "" : Except String String) with
          | .error m => .error m
          | .ok ep =>
              .ok ("(CASE " ++ String.intercalate " " ws ++ ep ++ " END)")

/-- Sequential compilation of `fn` arguments. -/
def exprArgs : List Expr → List String → Except String (List String)
  | [], _ => .ok []
  | e :: es, in_scope =>
      match _build_expr e in_scope with
      | .error m => .error m
      | .ok s =>
          match exprArgs es in_scope with
          | .error m => .error m
          | .ok rest => .ok (s :: rest)

/-- Sequential compilation of the `WHEN cond THEN expr` arms of a `case`
node (each guard through `_build_condition`, each result through
`_build_expr`). -/
def whenParts : List (Cond × Expr) → List String → Except String (List String)
  | [], _ => .ok []
  | ⟨c, t⟩ :: ws, in_scope =>
      match _build_condition c with
      | .error m => .error m
      | .ok cs =>
          match _build_expr t in_scope with
          | .error m => .error m
          | .ok ts =>
              match whenParts ws in_scope with
              | .error m => .error m
              | .ok rest => .ok (("WHEN " ++ cs ++ " THEN " ++ ts) :: rest)

end

/-- One entry of a process spec's `where` list. In the parsed model the
optional `values` key holds a JSON list and the optional `value` key a
scalar (the shapes the compiler's `IN` handling distinguishes). -/
structure WhereSpec where
  column : String
  op : String
  value : Option Lit := none
  values : Option (List Lit) := none
deriving DecidableEq

/-- Body of one iteration of the `_build_where` loop. The source computes
`vals = w.get("values") or w.get("value")`: a present non-empty `values`
list is used; otherwise the scalar (or absent) `value` is not a
list/tuple, so `{op} requires list of values` is raised. A non-IN operator
renders `w["value"]`; an absent `value` key raises `KeyError`. -/
def _build_where_clause (w : WhereSpec) : Except String String :=
  let col := _q_ident w.column
  let op := pyStrip (pyUpper w.op)
  if op ∈ _ALLOWED_OPS then
    if op = "IN" ∨ op = "NOT IN" then
      match w.values with
      | some vs =>
          if vs.isEmpty then .error (op ++ " requires list of values")
          else .ok (col ++ " " ++ op ++ " (" ++
                    String.intercalate ", " (vs.map _lit) ++ ")")
      | none => .error (op ++ " requires list of values")
    else
      match w.value with
      | some v => .ok (col ++ " " ++ op ++ " " ++ _lit v)
      | none => .error ("KeyError: \x27value\x27")
  else .error ("Unsupported operator: " ++ op)

/-- The parts list accumulated by `_build_where`; the first raised error
aborts the loop. -/
def whereParts : List WhereSpec → Except String (List String)
  | [] => .ok []
  | w :: ws =>
      match _build_where_clause w with
      | .error m => .error m
      | .ok p =>
          match whereParts ws with
          | .error m => .error m
          | .ok rest => .ok (p :: rest)

/-- Embeds `_build_where`: empty parts yield `""`, otherwise
`WHERE p1 AND p2 AND ...`. -/
def _build_where (ws : List WhereSpec) : Except String String :=
  match whereParts ws with
  | .error m => .error m
  | .ok parts =>
      .ok (if parts.isEmpty then "" else "WHERE " ++ String.intercalate " AND " parts)

/-- One entry of `named_expressions`. -/
structure NamedExpr where
  name : String
  expr : Expr

/-- Embeds the CTE loop of `build_duckdb_sql_from_process`: each named
expression is compiled against the scope accumulated so far, rendered as
`expr AS "name"`, and its name is then added to the scope (`in_scope` is a
Python set used only for membership, modelled as a list). Returns the
rendered CTE columns and the final scope. -/
def compileNamedExprs : List NamedExpr → List String → Except String (List String × List String)
  | [], in_scope => .ok ([], in_scope)
  | ne :: nes, in_scope =>
      match _build_expr ne.expr in_scope with
      | .error m => .error m
      | .ok expr_sql =>
          match compileNamedExprs nes (in_scope ++ [ne.name]) with
          | .error m => .error m
          | .ok (cols, final_scope) =>
              .ok ((expr_sql ++ " AS " ++ _q_ident ne.name) :: cols, final_scope)

/-- A JSON scalar that may sit under the spec's `limit` key. Python's
`isinstance(x, int)` is true for `bool` as well (`bool` subclasses `int`),
which the model mirrors. -/
inductive JVal
  | jint (n : Int)
  | jbool (b : Bool)
  | jstr (s : String)
deriving DecidableEq

/-- Python `isinstance(v, int)` on a JSON scalar. -/
def pyIsInstInt : JVal → Bool
  | .jint _ => true
  | .jbool _ => true
  | .jstr _ => false

/-- Python `int(v)` on a JSON scalar for which `isinstance(v, int)` holds. -/
def pyToInt : JVal → Int
  | .jint n => n
  | .jbool b => if b then 1 else 0
  | .jstr _ => 0

/-- Embeds `limit_sql = f"LIMIT {int(limit)}" if isinstance(limit, int) else ""`
(with `limit = proc.get("limit")`, so an absent key is `None`). -/
def limitSql : Option JVal → String
  | some v => if pyIsInstInt v then "LIMIT " ++ toString (pyToInt v) else ""
  | none => ""

/-- The `expr` of one `order_by` entry: a JSON integer, a JSON string, or
an expression tree (dict). -/
inductive ObExpr
  | oint (n : Int)
  | ostr (s : String)
  | otree (e : Expr)

/-- One entry of `order_by`; `asc` is the optional JSON `asc` key
(`ob.get("asc", True)`). -/
structure OrderSpec where
  expr : ObExpr
  asc : Option Bool := none

/-- Python `str.isdigit` restricted to ASCII digits (the JSON documents in
this repository are ASCII in the relevant positions). -/
def pyIsdigit (s : String) : Bool :=
  !s.data.isEmpty && s.data.all Char.isDigit

/-- Embeds the `expr_sql` dispatch of the ORDER BY loop: integers and
digit-only strings render bare (positional reference), dicts compile as
expressions against the outer scope, all other strings are quoted as
column identifiers. -/
def orderExprSql (e : ObExpr) (scope : List String) : Except String String :=
  match e with
  | .oint n => .ok (toString n)
  | .ostr s => if pyIsdigit s then .ok s else .ok (_q_ident s)
  | .otree t => _build_expr t scope

/-- One rendered ORDER BY entry: the expression followed by ` ASC`/` DESC`,
ascending when `asc` is absent. -/
def orderEntrySql (ob : OrderSpec) (scope : List String) : Except String String :=
  match orderExprSql ob.expr scope with
  | .error m => .error m
  | .ok es => .ok (es ++ " " ++ (if ob.asc.getD true then "ASC" else "DESC"))

/-- Sequential rendering of all ORDER BY entries. -/
def orderParts : List OrderSpec → List String → Except String (List String)
  | [], _ => .ok []
  | ob :: obs, scope =>
      match orderEntrySql ob scope with
      | .error m => .error m
      | .ok p =>
          match orderParts obs scope with
          | .error m => .error m
          | .ok rest => .ok (p :: rest)

/-- Embeds the ORDER BY clause construction (`order_specs = proc.get("order_by") or []`;
an empty list yields `""`). -/
def orderSql (obs : List OrderSpec) (scope : List String) : Except String String :=
  if obs.isEmpty then .ok ""
  else
    match orderParts obs scope with
    | .error m => .error m
    | .ok parts => .ok ("ORDER BY " ++ String.intercalate ", " parts)

/-- One entry of `aggregations`; `aliasName` embeds the JSON `alias` key
(`alias` is a reserved word in Lean). -/
structure Aggregation where
  fn : String
  expr : Expr
  aliasName : String

/-- Embeds the aggregation loop: the upper-cased `fn` must be in
`_ALLOWED_AGG_FUNCS`, the expression compiles against the outer scope, and
the entry renders as `FN(expr) AS "alias"`. -/
def aggSelects : List Aggregation → List String → Except String (List String)
  | [], _ => .ok []
  | a :: rest, scope =>
      let fn := pyUpper a.fn
      if fn ∈ _ALLOWED_AGG_FUNCS then
        match _build_expr a.expr scope with
        | .error m => .error m
        | .ok expr_sql =>
            match aggSelects rest scope with
            | .error m => .error m
            | .ok tl => .ok ((fn ++ "(" ++ expr_sql ++ ") AS " ++ _q_ident a.aliasName) :: tl)
      else .error ("Unsupported aggregation: " ++ fn)

/-- A parsed process spec document. `whereClauses` embeds the JSON `where`
key (`where` is a reserved word in Lean); the other field names follow the
JSON keys. -/
structure ProcessSpec where
  source : String
  whereClauses : List WhereSpec := []
  named_expressions : List NamedExpr := []
  group_by : List String
  aggregations : List Aggregation := []
  order_by : List OrderSpec := []
  limit : Option JVal := none

/-- Embeds `build_duckdb_sql_from_process` (after `load_process` has parsed
the JSON document): WHERE compilation, the optional `base` CTE over the
named-expression chain, the SELECT list (group-by columns then
aggregations, the latter compiled against named names plus group-by
columns), GROUP BY, ORDER BY, LIMIT, and the final f-string assembly
(`.strip()` is modelled by `pyStrip`). -/
def build_duckdb_sql_from_process (proc : ProcessSpec) : Except String String :=
  let src := _q_ident proc.source
  match _build_where proc.whereClauses with
  | .error m => .error m
  | .ok where_sql_inner =>
      match compileNamedExprs proc.named_expressions [] with
      | .error m => .error m
      | .ok (cte_cols, in_scope) =>
          let fww :=
            if ¬ cte_cols.isEmpty then
              let inner_select :=
                "SELECT *, " ++ String.intercalate ", " cte_cols ++ " FROM " ++ src ++
                (if where_sql_inner ≠ "" then " " ++ where_sql_inner else "")
              ("base", "WITH base AS (" ++ inner_select ++ ")\n", "")
            else (src, "", where_sql_inner)
          let from_sql := fww.1
          let with_sql := fww.2.1
          let where_sql_outer := fww.2.2
          let in_scope_outer := in_scope ++ proc.group_by
          match aggSelects proc.aggregations in_scope_outer with
          | .error m => .error m
          | .ok agg_sel =>
              let selects := proc.group_by.map _q_ident ++ agg_sel
              let select_sql := String.intercalate ",\n    " selects
              let gb_cols := String.intercalate ", " (proc.group_by.map _q_ident)
              let group_sql := if gb_cols ≠ "" then "GROUP BY " ++ gb_cols else ""
              match orderSql proc.order_by in_scope_outer with
              | .error m => .error m
              | .ok order_sql =>
                  let limit_sql := limitSql proc.limit
                  let outer_sql :=
                    pyStrip ("SELECT\n        " ++ select_sql ++
                     "\n        FROM " ++ from_sql ++
                     "\n        " ++ where_sql_outer ++
                     "\n        " ++ group_sql ++
                     "\n        " ++ order_sql ++
                     "\n        " ++ limit_sql ++
                     "\n    ")
                  .ok (with_sql ++ outer_sql)

end SqlGen

namespace SchemaUtils

/-- A cell value of a DataFrame column. The repository's schemas declare
`integer` and `string` fields (see the integration test fixtures), so
numeric cells are modelled over `Int`; float parsing is not modelled. -/
inductive Val
  | vstr (s : String)
  | vint (n : Int)
deriving DecidableEq

/-- The dtype tag of a pandas series, as far as the code inspects it:
`pd.api.types.is_string_dtype`, integer/float dtypes (collapsed into
`dnumeric`), and the categorical dtype produced by `pd.Categorical`. -/
inductive Dtype
  | dstring
  | dnumeric
  | dcat
deriving DecidableEq

/-- A pandas Series: a dtype tag and a list of nullable cells (`none` is
`pd.NA`). -/
structure Series where
  dtype : Dtype
  vals : List (Option Val)
deriving DecidableEq

/-- A pandas DataFrame: an ordered association of column names to series
(default RangeIndex, so row labels are positions). -/
abbrev DataFrame := List (String × Series)

/-- Column lookup, `df[name]` / `name in df.columns`. -/
def dfGet? (df : DataFrame) (name : String) : Option Series :=
  (df.find? (fun p => p.1 == name)).map (·.2)

/-- Column assignment `df[name] = s`: replaces an existing column in place
(column names are unique in a pandas DataFrame, so replacing the first
occurrence is replacing the column), appends a new column at the end
otherwise. -/
def dfSet (df : DataFrame) (name : String) (s : Series) : DataFrame :=
  match df with
  | [] => [(name, s)]
  | p :: rest => if p.1 == name then (p.1, s) :: rest else p :: dfSet rest name s

/-- Embeds `pd.api.types.is_string_dtype(df[name])`. -/
def is_string_dtype (s : Series) : Bool :=
  s.dtype == Dtype.dstring

/-- Embeds `df[name].str.strip()` (trim surrounding whitespace of each
non-null cell; nulls pass through). -/
def stripSeries (s : Series) : Series :=
  ⟨s.dtype, s.vals.map (Option.map fun v =>
      match v with
      | .vstr t => .vstr (pyStrip t)
      | x => x)⟩

/-- Embeds `.astype("string")`: every non-null cell becomes its string
form, the dtype becomes the string dtype. -/
def astypeString (s : Series) : Series :=
  ⟨Dtype.dstring, s.vals.map (Option.map fun v =>
      match v with
      | .vstr t => .vstr t
      | .vint n => .vstr (toString n))⟩

/-- Character-list core of Python `str.zfill`: fill with `0` up to
`width`, keeping a leading `+`/`-` sign in front with the zeros inserted
after it (only reached when the length is below `width`). -/
def zfillCore (width : Nat) : List Char → List Char
  | [] => List.replicate width '0'
  | c :: rest =>
      if c = '-' ∨ c = '+' then
        c :: (List.replicate (width - (c :: rest).length) '0' ++ rest)
      else List.replicate (width - (c :: rest).length) '0' ++ (c :: rest)

/-- Embeds Python `str.zfill(width)`: strings of length `≥ width` pass
through; shorter strings are filled via `zfillCore`. -/
def pyZfill (width : Nat) (s : String) : String :=
  if width ≤ s.length then s
  else ⟨zfillCore width s.data⟩

/-- Embeds `.str.zfill(width)` over a series (nulls pass through). -/
def zfillSeries (width : Nat) (s : Series) : Series :=
  ⟨s.dtype, s.vals.map (Option.map fun v =>
      match v with
      | .vstr t => .vstr (pyZfill width t)
      | x => x)⟩

/-- Parse a decimal digit run to a `Nat` (empty or non-digit input fails). -/
def digitsToNat (cs : List Char) : Option Nat :=
  if cs.isEmpty then none
  else if cs.all Char.isDigit then
    some (cs.foldl (fun acc c => acc * 10 + (c.toNat - ('0').toNat)) 0)
  else none

/-- Integer parsing as `pd.to_numeric` accepts it on this model's domain:
an optional sign followed by decimal digits. -/
def parseIntString (s : String) : Option Int :=
  match s.data with
  | '-' :: rest => (digitsToNat rest).map (fun n => -(n : Int))
  | '+' :: rest => (digitsToNat rest).map (fun n => (n : Int))
  | cs => (digitsToNat cs).map (fun n => (n : Int))

/-- Cell-wise `pd.to_numeric(..., errors="raise")`: nulls pass through,
numbers pass through, strings must parse; the first unparsable cell raises
naming the offending value and its position. -/
def toNumericVals : List (Option Val) → Nat → Except String (List (Option Val))
  | [], _ => .ok []
  | none :: rest, i =>
      match toNumericVals rest (i + 1) with
      | .error m => .error m
      | .ok tl => .ok (none :: tl)
  | some (.vint n) :: rest, i =>
      match toNumericVals rest (i + 1) with
      | .error m => .error m
      | .ok tl => .ok (some (.vint n) :: tl)
  | some (.vstr s) :: rest, i =>
      match parseIntString s with
      | some n =>
          match toNumericVals rest (i + 1) with
          | .error m => .error m
          | .ok tl => .ok (some (.vint n) :: tl)
      | none => .error ("Unable to parse string \"" ++ s ++ "\" at position " ++ toString i)

/-- Embeds `pd.to_numeric(df[name], errors="raise")`. -/
def to_numeric (s : Series) : Except String Series :=
  match toNumericVals s.vals 0 with
  | .error m => .error m
  | .ok vs => .ok ⟨Dtype.dnumeric, vs⟩

/-- Bit width of the pandas nullable integer dtypes the repository's
schemas use (`pandasType` values observed in the fixtures). -/
def intWidth : String → Option Nat
  | "Int8" => some 8
  | "Int16" => some 16
  | "Int32" => some 32
  | "Int64" => some 64
  | _ => none

/-- Embeds `.astype(target)` for a nullable integer target dtype: an
unknown dtype name raises, a value outside the target's range raises
(pandas refuses non-equivalent casts for the nullable Int dtypes). -/
def astypeInt (pt : String) (s : Series) : Except String Series :=
  match intWidth pt with
  | none => .error ("data type \x27" ++ pt ++ "\x27 not understood")
  | some w =>
      if s.vals.all (fun ov =>
          match ov with
          | some (.vint n) => decide (-(2 : Int) ^ (w - 1) ≤ n ∧ n < (2 : Int) ^ (w - 1))
          | some (.vstr _) => false
          | none => true) then
        .ok ⟨Dtype.dnumeric, s.vals⟩
      else .error ("cannot safely cast non-equivalent values to " ++ pt)

/-- Embeds `pd.Categorical(df[name], categories=enum)`: values outside the
declared categories become `NA`, the dtype becomes categorical. -/
def toCategorical (cats : List Val) (s : Series) : Series :=
  ⟨Dtype.dcat, s.vals.map (fun ov =>
      match ov with
      | some v => if v ∈ cats then some v else none
      | none => none)⟩

/-- A compiled regex is modelled by its source text plus its matching
predicate (`re.match`, i.e. match at the start of the string); the regex
engine itself is external to this embedding. -/
structure RegexPattern where
  src : String
  isMatch : String → Bool

/-- One schema field, with the keys `_coerce_types` and `_validate` read
(absent JSON keys are `none` / the Python defaults). -/
structure Field where
  name : String
  type : String
  pandasType : Option String := none
  logicalType : Option String := none
  required : Bool := false
  nullable : Bool := true
  pattern : Option RegexPattern := none
  enum : Option (List Val) := none
  min : Option Int := none
  max : Option Int := none

/-- A parsed schema document: the `fields` array plus the optional
`primaryKey` list (`schema.get("primaryKey", [])`). -/
structure Schema where
  fields : List Field
  primaryKey : List String := []

/-- The type-conversion step of one `_coerce_types` iteration (the code
from `ftype == "integer"` through `ftype == "string"`); failures are the
exceptions the `except` clause catches for this field. -/
def _coerce_convert (f : Field) (s : Series) : Except String Series :=
  if f.type == "integer" then
    match f.pandasType with
    | none => .error ("[schema] pandasType required for integer field \x27" ++ f.name ++ "\x27")
    | some pt =>
        match to_numeric s with
        | .error m => .error m
        | .ok s2 => astypeInt pt s2
  else if f.type == "number" then to_numeric s
  else if f.type == "string" then .ok (astypeString s)
  else .ok s

/-- One iteration of the `_coerce_types` field loop: a column absent from
the DataFrame is skipped; otherwise trim (string dtype only), apply the
`zeroPad7` logical type, convert by declared type and apply the enum
categorical. A failure leaves the writes already made to the DataFrame in
place (the `try` block mutated `df[name]` step by step) and reports the
exception text. -/
def _coerce_field (f : Field) (df : DataFrame) : DataFrame × Option String :=
  match dfGet? df f.name with
  | none => (df, none)
  | some s0 =>
      let isStr := is_string_dtype s0
      let s1 := if isStr then stripSeries s0 else s0
      let df1 := if isStr then dfSet df f.name s1 else df
      let zp := f.logicalType == some "zeroPad7"
      let s2 := if zp then zfillSeries 7 (astypeString s1) else s1
      let df2 := if zp then dfSet df1 f.name s2 else df1
      match _coerce_convert f s2 with
      | .error e => (df2, some e)
      | .ok s3 =>
          let converts := f.type == "integer" || f.type == "number" || f.type == "string"
          let df3 := if converts then dfSet df2 f.name s3 else df2
          let enumCat := f.enum.isSome && f.type == "string"
          let s4 := if enumCat then toCategorical (f.enum.getD []) s3 else s3
          let df4 := if enumCat then dfSet df3 f.name s4 else df3
          (df4, none)

/-- The `_coerce_types` loop over all schema fields, threading the mutated
copy and appending one `[coerce] <field>: <cause>` entry per failing field
(the loop never stops at a failure). -/
def coerceLoop : List Field → DataFrame → List String → DataFrame × List String
  | [], df, errors => (df, errors)
  | f :: rest, df, errors =>
      let r := _coerce_field f df
      let errors2 :=
        match r.2 with
        | none => errors
        | some e => errors ++ ["[coerce] " ++ f.name ++ ": " ++ e]
      coerceLoop rest r.1 errors2

/-- Embeds `_coerce_types` (the value-level behavior; the `df.copy()`
frame condition is modelled separately by `_coerce_types_heap`): run the
field loop, then raise one aggregated error if any field failed,
otherwise return the coerced DataFrame. -/
def _coerce_types (df : DataFrame) (schema : Schema) : Except String DataFrame :=
  let r := coerceLoop schema.fields df []
  if r.2.isEmpty then .ok r.1
  else .error ("Type coercion failed:\n- " ++ String.intercalate "\n- " r.2)

/-- Per-field error entries of the coercion loop, written as a direct
recursion over the fields (used to characterize `coerceLoop`'s
accumulator). -/
def fieldErrors : List Field → DataFrame → List String
  | [], _ => []
  | f :: rest, df =>
      let r := _coerce_field f df
      (match r.2 with
       | none => []
       | some e => ["[coerce] " ++ f.name ++ ": " ++ e]) ++ fieldErrors rest r.1

/-- An object heap for the frame-condition claim: Python names are
addresses into a store of DataFrame objects (`a` is the caller's `df`
binding). `df.copy()` allocates a fresh object; every in-place column
assignment of the loop targets the copy's address. -/
def coerceHeapLoop : List Field → List DataFrame → Nat → List String → List DataFrame × List String
  | [], h, _, errors => (h, errors)
  | f :: rest, h, b, errors =>
      let df := h.getD b []
      let r := _coerce_field f df
      let h2 := h.set b r.1
      let errors2 :=
        match r.2 with
        | none => errors
        | some e => errors ++ ["[coerce] " ++ f.name ++ ": " ++ e]
      coerceHeapLoop rest h2 b errors2

/-- Embeds `_coerce_types` at the heap level: `df = df.copy()` allocates a
new object at a fresh address and rebinds the local `df` to it; the field
loop then mutates only that object; the function returns the copy's
address (or raises). -/
def _coerce_types_heap (h : List DataFrame) (a : Nat) (schema : Schema) :
    List DataFrame × Except String Nat :=
  let df := h.getD a []
  let b := h.length
  let h1 := h ++ [df]
  let r := coerceHeapLoop schema.fields h1 b []
  if r.2.isEmpty then (r.1, .ok b)
  else (r.1, .error ("Type coercion failed:\n- " ++ String.intercalate "\n- " r.2))

end SchemaUtils

namespace SchemaUtils

/-- Python `str` of a list of ints (row-index lists in messages). -/
def pyIntListRepr (xs : List Nat) : String :=
  "[" ++ String.intercalate ", " (xs.map toString) ++ "]"

/-- Python `repr` of one cell as it appears inside a rendered list
(`pd.NA` prints `<NA>`; strings print single-quoted — quote escaping
inside the repr is not modelled, the fixtures contain no quotes). -/
def pyReprCell : Option Val → String
  | none => "<NA>"
  | some (.vstr s) => "\x27" ++ s ++ "\x27"
  | some (.vint n) => toString n

/-- Python `str` of a list of cells (`.tolist()` rendered in an f-string). -/
def pyCellListRepr (xs : List (Option Val)) : String :=
  "[" ++ String.intercalate ", " (xs.map pyReprCell) ++ "]"

/-- Python `str` of a list of strings (the schema's `enum` / `primaryKey`
lists rendered in an f-string). -/
def pyStrListRepr (xs : List String) : String :=
  "[" ++ String.intercalate ", " (xs.map (fun s => "\x27" ++ s ++ "\x27")) ++ "]"

/-- Indices (row positions) at which a cell predicate holds. -/
def idxWhere (p : Option Val → Bool) (vals : List (Option Val)) : List Nat :=
  (vals.enum.filter (fun iv => p iv.2)).map (·.1)

/-- The nullability check of `_validate`: a non-nullable column with nulls
reports the first 5 offending row indices. -/
def nullCheck (f : Field) (s : Series) : List String :=
  if ¬ f.nullable ∧ s.vals.any (·.isNone) then
    ["[null] " ++ f.name ++ " has nulls at rows " ++
     pyIntListRepr ((idxWhere (·.isNone) s.vals).take 5) ++ " (showing up to 5)"]
  else []

/-- Cell rendered for regex matching after `fillna("")` (on a string-dtype
series all non-null cells are strings). -/
def fillnaStr : Option Val → String
  | none => ""
  | some (.vstr t) => t
  | some (.vint n) => toString n

/-- The pattern check of `_validate`: guarded by `pattern and
is_string_dtype(s)` (an empty pattern string is falsy in Python); every
cell whose `fillna("")` form fails `re.match` is reported, up to 5
indices and values. -/
def patternCheck (f : Field) (s : Series) : List String :=
  match f.pattern with
  | some pat =>
      if pat.src ≠ "" ∧ is_string_dtype s then
        let mism := fun (ov : Option Val) => ! pat.isMatch (fillnaStr ov)
        if s.vals.any mism then
          ["[pattern] " ++ f.name ++ " failed pattern " ++ pat.src ++ ": rows " ++
           pyIntListRepr ((idxWhere mism s.vals).take 5) ++ ", values " ++
           pyCellListRepr ((s.vals.filter mism).take 5)]
        else []
      else []
  | none => []

/-- The enum check of `_validate`: non-null cells outside the declared set
are reported (nulls are exempt via `s.notna()`), up to 5 indices/values. -/
def enumCheck (f : Field) (s : Series) : List String :=
  match f.enum with
  | some es =>
      let mism := fun (ov : Option Val) =>
        match ov with
        | some v => decide (v ∉ es)
        | none => false
      if s.vals.any mism then
        ["[enum] " ++ f.name ++ " not in " ++
         pyStrListRepr (es.map (fun v => match v with | .vstr s => s | .vint n => toString n)) ++
         ": rows " ++ pyIntListRepr ((idxWhere mism s.vals).take 5) ++
         ", values " ++ pyCellListRepr ((s.vals.filter mism).take 5)]
      else []
  | none => []

/-- Numeric-dtype test (`is_integer_dtype or is_float_dtype`). -/
def isNumericDtype (s : Series) : Bool :=
  s.dtype == Dtype.dnumeric

/-- The range check of `_validate`: on numeric columns, non-null values
below `min` and above `max` are each reported, up to 5 indices/values. -/
def rangeCheck (f : Field) (s : Series) : List String :=
  if isNumericDtype s then
    (match f.min with
     | some minv =>
         let mism := fun (ov : Option Val) =>
           match ov with
           | some (.vint n) => decide (n < minv)
           | _ => false
         if s.vals.any mism then
           ["[range] " ++ f.name ++ " < " ++ toString minv ++ ": rows " ++
            pyIntListRepr ((idxWhere mism s.vals).take 5) ++ ", values " ++
            pyCellListRepr ((s.vals.filter mism).take 5)]
         else []
     | none => []) ++
    (match f.max with
     | some maxv =>
         let mism := fun (ov : Option Val) =>
           match ov with
           | some (.vint n) => decide (maxv < n)
           | _ => false
         if s.vals.any mism then
           ["[range] " ++ f.name ++ " > " ++ toString maxv ++ ": rows " ++
            pyIntListRepr ((idxWhere mism s.vals).take 5) ++ ", values " ++
            pyCellListRepr ((s.vals.filter mism).take 5)]
         else []
     | none => [])
  else []

/-- All per-field checks of one `_validate` iteration for a present
column, in source order: nullability, pattern, enum, range. -/
def fieldChecks (f : Field) (s : Series) : List String :=
  nullCheck f s ++ patternCheck f s ++ enumCheck f s ++ rangeCheck f s

/-- Number of rows of a DataFrame (pandas keeps all columns equally long;
the first column's length stands for the frame's). -/
def dfNRows (df : DataFrame) : Nat :=
  match df with
  | [] => 0
  | (_, s) :: _ => s.vals.length

/-- The primary-key tuple of row `i` (`df.loc[i, pk]`). -/
def rowKey (df : DataFrame) (pk : List String) (i : Nat) : List (Option Val) :=
  pk.map (fun c =>
    match dfGet? df c with
    | some s => s.vals.getD i none
    | none => none)

/-- Row indices marked by `df.duplicated(subset=pk, keep=False)`: every
row whose key tuple occurs more than once. -/
def dupIdx (df : DataFrame) (pk : List String) : List Nat :=
  (List.range (dfNRows df)).filter (fun i =>
    2 ≤ ((List.range (dfNRows df)).filter
          (fun j => decide (rowKey df pk j = rowKey df pk i))).length)

/-- Python `repr` of one record of `df.loc[ix, pk].to_dict(orient="records")`. -/
def pyRecordRepr (pk : List String) (key : List (Option Val)) : String :=
  "\x7b" ++ String.intercalate ", "
    ((pk.zip key).map (fun p => "\x27" ++ p.1 ++ "\x27: " ++ pyReprCell p.2)) ++ "\x7d"

/-- The primary-key check of `_validate`: an empty `primaryKey` list is
falsy and skips the check; `df.duplicated(subset=pk, ...)` raises
`KeyError` when a key column is absent; otherwise duplicated key rows are
reported, capped at 10, with their key records. -/
def pkCheck (df : DataFrame) (pk : List String) : Except String (List String)
  :=
  if pk.isEmpty then .ok []
  else if pk.any (fun c => (dfGet? df c).isNone) then
    .error ("KeyError: " ++ pyStrListRepr (pk.filter (fun c => (dfGet? df c).isNone)))
  else
    let dups := dupIdx df pk
    if dups.isEmpty then .ok []
    else
      let ix := dups.take 10
      .ok ["[primaryKey] duplicates on " ++ pyStrListRepr pk ++ ": rows " ++
           pyIntListRepr ix ++ ", keys [" ++
           String.intercalate ", " (ix.map (fun i => pyRecordRepr pk (rowKey df pk i))) ++ "]"]

/-- The field loop of `_validate`: a required column absent from the
DataFrame appends one error and `continue`s (skipping its per-field
checks); reading an absent non-required column (`s = df[name]`) raises
`KeyError`, which propagates uncaught and aborts the pass. -/
def validateLoop : List Field → DataFrame → List String → Except String (List String)
  | [], _, errors => .ok errors
  | f :: rest, df, errors =>
      if f.required ∧ (dfGet? df f.name).isNone then
        validateLoop rest df (errors ++ ["[schema] required column missing: " ++ f.name])
      else
        match dfGet? df f.name with
        | none => .error ("KeyError: \x27" ++ f.name ++ "\x27")
        | some s => validateLoop rest df (errors ++ fieldChecks f s)

/-- Embeds `_validate`: run the per-field loop, then the primary-key
check, and raise one aggregated error if any violation was recorded. -/
def _validate (df : DataFrame) (schema : Schema) : Except String Unit :=
  match validateLoop schema.fields df [] with
  | .error m => .error m
  | .ok errors1 =>
      match pkCheck df schema.primaryKey with
      | .error m => .error m
      | .ok pkErrs =>
          let errors := errors1 ++ pkErrs
          if errors.isEmpty then .ok ()
          else .error ("Schema validation failed:\n- " ++ String.intercalate "\n- " errors)

/-- The violation list `_validate` accumulates, written as a direct
per-field map (meaningful when every field's column resolves, i.e. no
`KeyError` path is taken). -/
def validationErrors (df : DataFrame) (schema : Schema) : List String :=
  (schema.fields.map (fun f =>
    match dfGet? df f.name with
    | none => if f.required then ["[schema] required column missing: " ++ f.name] else []
    | some s => fieldChecks f s)).flatten ++
  (match pkCheck df schema.primaryKey with
   | .ok es => es
   | .error _ => [])

end SchemaUtils

namespace SqlGen

/-- Shape-wellformedness of the `value` attached to a comparison, relative
to its operator: exactly the conditions under which `_build_condition`
does not raise on a `cmp` node. -/
def wfCmp (op : String) (v : CondVal) : Bool :=
  let o := pyUpper op
  if o = "IS NULL" ∨ o = "IS NOT NULL" then true
  else if o = "IN" ∨ o = "NOT IN" then
    match v with
    | .clist _ => true
    | _ => false
  else if o = "BETWEEN" then
    match v with
    | .clist [_, _] => true
    | _ => false
  else true

mutual

/-- Shape-wellformedness of a condition tree (wellformed `IN`/`BETWEEN`
values everywhere). -/
def wfCond : Cond → Bool
  | .allC cs => wfCondList cs
  | .anyC cs => wfCondList cs
  | .notC c => wfCond c
  | .cmp _ op v => wfCmp op v

/-- List version of `wfCond`. -/
def wfCondList : List Cond → Bool
  | [] => true
  | c :: cs => wfCond c && wfCondList cs

end

mutual

/-- All `ref` names occurring in an expression tree. -/
def refsOf : Expr → List String
  | .bare _ => []
  | .col _ => []
  | .val _ => []
  | .ref n => [n]
  | .fn _ args => refsOfList args
  | .bop _ l r => refsOf l ++ refsOf r
  | .caseE whens elseE =>
      refsOfWhens whens ++ (match elseE with | some e => refsOf e | none => [])

/-- All `ref` names occurring in a list of expressions. -/
def refsOfList : List Expr → List String
  | [] => []
  | e :: es => refsOf e ++ refsOfList es

/-- All `ref` names occurring in the arms of a `case` node. -/
def refsOfWhens : List (Cond × Expr) → List String
  | [] => []
  | w :: ws => refsOf w.2 ++ refsOfWhens ws

end

mutual

/-- All `fn` names occurring in an expression tree (as written, before
upper-casing). -/
def fnsOf : Expr → List String
  | .bare _ => []
  | .col _ => []
  | .val _ => []
  | .ref _ => []
  | .fn name args => name :: fnsOfList args
  | .bop _ l r => fnsOf l ++ fnsOf r
  | .caseE whens elseE =>
      fnsOfWhens whens ++ (match elseE with | some e => fnsOf e | none => [])

/-- List version of `fnsOf`. -/
def fnsOfList : List Expr → List String
  | [] => []
  | e :: es => fnsOf e ++ fnsOfList es

/-- `case`-arm version of `fnsOf`. -/
def fnsOfWhens : List (Cond × Expr) → List String
  | [] => []
  | w :: ws => fnsOf w.2 ++ fnsOfWhens ws

end

mutual

/-- All condition trees occurring (as `case` guards) in an expression. -/
def condsOf : Expr → List Cond
  | .bare _ => []
  | .col _ => []
  | .val _ => []
  | .ref _ => []
  | .fn _ args => condsOfList args
  | .bop _ l r => condsOf l ++ condsOf r
  | .caseE whens elseE =>
      condsOfWhens whens ++ (match elseE with | some e => condsOf e | none => [])

/-- List version of `condsOf`. -/
def condsOfList : List Expr → List Cond
  | [] => []
  | e :: es => condsOf e ++ condsOfList es

/-- `case`-arm version of `condsOf` (the guard itself plus the conditions
nested in the result expression). -/
def condsOfWhens : List (Cond × Expr) → List Cond
  | [] => []
  | w :: ws => w.1 :: (condsOf w.2 ++ condsOfWhens ws)

end

/-- Predicate bundling the three side conditions `_build_expr` checks
besides producing text: every `ref` resolves in scope, every `fn` name is
whitelisted, every embedded condition is shape-wellformed. -/
def exprSide (e : Expr) (scope : List String) : Prop :=
  (∀ n ∈ refsOf e, n ∈ scope) ∧ (∀ f ∈ fnsOf e, pyUpper f ∈ _ALLOWED_FUNCS) ∧
  (∀ c ∈ condsOf e, wfCond c = true)

/-- List version of `exprSide`. -/
def exprSideList (es : List Expr) (scope : List String) : Prop :=
  (∀ n ∈ refsOfList es, n ∈ scope) ∧ (∀ f ∈ fnsOfList es, pyUpper f ∈ _ALLOWED_FUNCS) ∧
  (∀ c ∈ condsOfList es, wfCond c = true)

/-- `case`-arm version of `exprSide`. -/
def exprSideWhens (ws : List (Cond × Expr)) (scope : List String) : Prop :=
  (∀ n ∈ refsOfWhens ws, n ∈ scope) ∧ (∀ f ∈ fnsOfWhens ws, pyUpper f ∈ _ALLOWED_FUNCS) ∧
  (∀ c ∈ condsOfWhens ws, wfCond c = true)

mutual

/-- A condition tree compiles successfully exactly when its `IN`/`BETWEEN`
values are shape-wellformed (`_build_condition` inspects nothing else). -/
theorem build_condition_ok_iff : ∀ c : Cond,
    (∃ s, _build_condition c = .ok s) ↔ wfCond c = true
  | .allC cs => by
      have ih := condParts_ok_iff cs
      cases h : condParts cs with
      | error m => simp [_build_condition, h, wfCond, ← ih]
      | ok parts => simp [_build_condition, h, wfCond, ← ih]
  | .anyC cs => by
      have ih := condParts_ok_iff cs
      cases h : condParts cs with
      | error m => simp [_build_condition, h, wfCond, ← ih]
      | ok parts => simp [_build_condition, h, wfCond, ← ih]
  | .notC c => by
      have ih := build_condition_ok_iff c
      cases h : _build_condition c with
      | error m => simp [_build_condition, h, wfCond, ← ih]
      | ok s => simp [_build_condition, h, wfCond, ← ih]
  | .cmp col op v => by
      simp only [_build_condition, wfCond, wfCmp]
      split_ifs with h1 h2 h3
      · simp
      · cases v <;> simp
      · rcases v with _ | v | (_ | ⟨lo, _ | ⟨hi, _ | _⟩⟩) <;> simp
      · simp

/-- The parts list of `all`/`any` compiles successfully exactly when every
member condition is shape-wellformed. -/
theorem condParts_ok_iff : ∀ cs : List Cond,
    (∃ ps, condParts cs = .ok ps) ↔ wfCondList cs = true
  | [] => by simp [condParts, wfCondList]
  | c :: cs => by
      have ihc := build_condition_ok_iff c
      have ihs := condParts_ok_iff cs
      cases h : _build_condition c with
      | error m =>
          simp only [condParts, h, wfCondList]
          constructor
          · rintro ⟨ps, hps⟩; cases hps
          · intro hw
            have : ∃ s, _build_condition c = .ok s := ihc.mpr (by
              rcases Bool.and_eq_true_iff.mp hw with ⟨h1, _⟩; exact h1)
            rcases this with ⟨s, hs⟩; rw [h] at hs; cases hs
      | ok s =>
          have hwc : wfCond c = true := ihc.mp ⟨s, h⟩
          cases h2 : condParts cs with
          | error m =>
              simp only [condParts, h, h2, wfCondList, hwc, Bool.true_and]
              constructor
              · rintro ⟨ps, hps⟩; cases hps
              · intro hw
                rcases ihs.mpr hw with ⟨ps, hps⟩; rw [h2] at hps; cases hps
          | ok ps =>
              simp only [condParts, h, h2, wfCondList, hwc, Bool.true_and]
              constructor
              · intro _; exact ihs.mp ⟨ps, h2⟩
              · intro _; exact ⟨s :: ps, rfl⟩

end

mutual

/-- Soundness of `_build_expr`: successful compilation certifies that all
`ref`s were in scope, all `fn` names whitelisted, all embedded conditions
shape-wellformed. -/
theorem build_expr_ok_sound : ∀ (e : Expr) (scope : List String) (s : String),
    _build_expr e scope = .ok s → exprSide e scope
  | .bare t, scope, s => by
      intro _
      simp [exprSide, refsOf, fnsOf, condsOf]
  | .col c, scope, s => by
      intro _
      simp [exprSide, refsOf, fnsOf, condsOf]
  | .val v, scope, s => by
      intro _
      simp [exprSide, refsOf, fnsOf, condsOf]
  | .ref n, scope, s => by
      intro h
      simp only [_build_expr] at h
      by_cases hn : n ∈ scope
      · simp [exprSide, refsOf, fnsOf, condsOf, hn]
      · rw [if_neg hn] at h; cases h
  | .fn name args, scope, s => by
      intro h
      simp only [_build_expr] at h
      by_cases hf : pyUpper name ∈ _ALLOWED_FUNCS
      · rw [if_pos hf] at h
        cases ha : exprArgs args scope with
        | error m => rw [ha] at h; cases h
        | ok parts =>
            have ih := exprArgs_ok_sound args scope parts ha
            refine ⟨?_, ?_, ?_⟩
            · simpa [refsOf] using ih.1
            · intro g hg
              simp only [fnsOf, List.mem_cons] at hg
              rcases hg with rfl | hg
              · exact hf
              · exact ih.2.1 g hg
            · simpa [condsOf] using ih.2.2
      · rw [if_neg hf] at h; cases h
  | .bop o l r, scope, s => by
      intro h
      simp only [_build_expr] at h
      cases hl : _build_expr l scope with
      | error m => rw [hl] at h; cases h
      | ok ls =>
          rw [hl] at h
          cases hr : _build_expr r scope with
          | error m => rw [hr] at h; cases h
          | ok rs =>
              have ihl := build_expr_ok_sound l scope ls hl
              have ihr := build_expr_ok_sound r scope rs hr
              refine ⟨?_, ?_, ?_⟩
              · intro n hn
                rcases List.mem_append.mp (by simpa [refsOf] using hn) with hn | hn
                · exact ihl.1 n hn
                · exact ihr.1 n hn
              · intro g hg
                rcases List.mem_append.mp (by simpa [fnsOf] using hg) with hg | hg
                · exact ihl.2.1 g hg
                · exact ihr.2.1 g hg
              · intro c hc
                rcases List.mem_append.mp (by simpa [condsOf] using hc) with hc | hc
                · exact ihl.2.2 c hc
                · exact ihr.2.2 c hc
  | .caseE whens elseE, scope, s => by
      intro h
      cases elseE with
      | none =>
          simp only [_build_expr] at h
          cases hw : whenParts whens scope with
          | error m => rw [hw] at h; cases h
          | ok ws =>
              have ihw := whenParts_ok_sound whens scope ws hw
              refine ⟨?_, ?_, ?_⟩
              · simpa [refsOf] using ihw.1
              · simpa [fnsOf] using ihw.2.1
              · simpa [condsOf] using ihw.2.2
      | some ee =>
          simp only [_build_expr] at h
          cases hw : whenParts whens scope with
          | error m => rw [hw] at h; cases h
          | ok ws =>
              rw [hw] at h
              have ihw := whenParts_ok_sound whens scope ws hw
              cases he : _build_expr ee scope with
              | error m => rw [he] at h; cases h
              | ok es =>
                  have ihe := build_expr_ok_sound ee scope es he
                  refine ⟨?_, ?_, ?_⟩
                  · intro n hn
                    rcases List.mem_append.mp (by simpa [refsOf] using hn) with hn | hn
                    · exact ihw.1 n hn
                    · exact ihe.1 n hn
                  · intro g hg
                    rcases List.mem_append.mp (by simpa [fnsOf] using hg) with hg | hg
                    · exact ihw.2.1 g hg
                    · exact ihe.2.1 g hg
                  · intro c hc
                    rcases List.mem_append.mp (by simpa [condsOf] using hc) with hc | hc
                    · exact ihw.2.2 c hc
                    · exact ihe.2.2 c hc

/-- Soundness of `exprArgs`. -/
theorem exprArgs_ok_sound : ∀ (es : List Expr) (scope : List String) (parts : List String),
    exprArgs es scope = .ok parts → exprSideList es scope
  | [], scope, parts => by
      intro _
      simp [exprSideList, refsOfList, fnsOfList, condsOfList]
  | e :: es, scope, parts => by
      intro h
      simp only [exprArgs] at h
      cases he : _build_expr e scope with
      | error m => rw [he] at h; cases h
      | ok s =>
          rw [he] at h
          cases hr : exprArgs es scope with
          | error m => rw [hr] at h; cases h
          | ok rest =>
              have ih1 := build_expr_ok_sound e scope s he
              have ih2 := exprArgs_ok_sound es scope rest hr
              refine ⟨?_, ?_, ?_⟩
              · intro n hn
                rcases List.mem_append.mp (by simpa [refsOfList] using hn) with hn | hn
                · exact ih1.1 n hn
                · exact ih2.1 n hn
              · intro g hg
                rcases List.mem_append.mp (by simpa [fnsOfList] using hg) with hg | hg
                · exact ih1.2.1 g hg
                · exact ih2.2.1 g hg
              · intro c hc
                rcases List.mem_append.mp (by simpa [condsOfList] using hc) with hc | hc
                · exact ih1.2.2 c hc
                · exact ih2.2.2 c hc

/-- Soundness of `whenParts`: every guard that compiled is wellformed and
every arm expression satisfies the side conditions. -/
theorem whenParts_ok_sound : ∀ (ws : List (Cond × Expr)) (scope : List String) (parts : List String),
    whenParts ws scope = .ok parts → exprSideWhens ws scope
  | [], scope, parts => by
      intro _
      simp [exprSideWhens, refsOfWhens, fnsOfWhens, condsOfWhens]
  | ⟨c, t⟩ :: ws, scope, parts => by
      intro h
      simp only [whenParts] at h
      cases hc : _build_condition c with
      | error m => rw [hc] at h; cases h
      | ok cs =>
          rw [hc] at h
          cases ht : _build_expr t scope with
          | error m => rw [ht] at h; cases h
          | ok ts =>
              rw [ht] at h
              cases hr : whenParts ws scope with
              | error m => rw [hr] at h; cases h
              | ok rest =>
                  have ihc : wfCond c = true := (build_condition_ok_iff c).mp ⟨cs, hc⟩
                  have iht := build_expr_ok_sound t scope ts ht
                  have ihw := whenParts_ok_sound ws scope rest hr
                  refine ⟨?_, ?_, ?_⟩
                  · intro n hn
                    rcases List.mem_append.mp (by simpa [refsOfWhens] using hn) with hn | hn
                    · exact iht.1 n hn
                    · exact ihw.1 n hn
                  · intro g hg
                    rcases List.mem_append.mp (by simpa [fnsOfWhens] using hg) with hg | hg
                    · exact iht.2.1 g hg
                    · exact ihw.2.1 g hg
                  · intro c2 hc2
                    simp only [condsOfWhens, List.mem_cons, List.mem_append] at hc2
                    rcases hc2 with rfl | hc2 | hc2
                    · exact ihc
                    · exact iht.2.2 c2 hc2
                    · exact ihw.2.2 c2 hc2

end

mutual

/-- When every `fn` name is whitelisted and every embedded condition is
shape-wellformed, the only failure `_build_expr` can raise is an
undefined-reference error, and its message names a `ref` that is not in
scope. -/
theorem build_expr_error_ref : ∀ (e : Expr) (scope : List String) (m : String),
    (∀ f ∈ fnsOf e, pyUpper f ∈ _ALLOWED_FUNCS) →
    (∀ c ∈ condsOf e, wfCond c = true) →
    _build_expr e scope = .error m →
    ∃ n, n ∈ refsOf e ∧ n ∉ scope ∧ m = "Undefined ref: " ++ n
  | .bare t, scope, m => by
      intro _ _ h; cases h
  | .col c, scope, m => by
      intro _ _ h; cases h
  | .val v, scope, m => by
      intro _ _ h; cases h
  | .ref n, scope, m => by
      intro _ _ h
      simp only [_build_expr] at h
      by_cases hn : n ∈ scope
      · rw [if_pos hn] at h; cases h
      · rw [if_neg hn] at h
        refine ⟨n, by simp [refsOf], hn, ?_⟩
        cases h; rfl
  | .fn name args, scope, m => by
      intro hf hc h
      simp only [_build_expr] at h
      by_cases hok : pyUpper name ∈ _ALLOWED_FUNCS
      · rw [if_pos hok] at h
        cases ha : exprArgs args scope with
        | error m2 =>
            rw [ha] at h
            cases h
            have ih := exprArgs_error_ref args scope m
              (fun g hg => hf g (by simp [fnsOf, hg]))
              (fun c2 hc2 => hc c2 (by simpa [condsOf] using hc2)) ha
            rcases ih with ⟨n, hn1, hn2, hn3⟩
            exact ⟨n, by simpa [refsOf] using hn1, hn2, hn3⟩
        | ok parts => rw [ha] at h; cases h
      · exact absurd (hf name (by simp [fnsOf])) hok
  | .bop o l r, scope, m => by
      intro hf hc h
      simp only [_build_expr] at h
      cases hl : _build_expr l scope with
      | error m2 =>
          rw [hl] at h
          cases h
          have ih := build_expr_error_ref l scope m
            (fun g hg => hf g (by simp [fnsOf, List.mem_append, hg]))
            (fun c2 hc2 => hc c2 (by simp [condsOf, List.mem_append, hc2])) hl
          rcases ih with ⟨n, hn1, hn2, hn3⟩
          exact ⟨n, by simp [refsOf, List.mem_append, hn1], hn2, hn3⟩
      | ok ls =>
          rw [hl] at h
          cases hr : _build_expr r scope with
          | error m2 =>
              rw [hr] at h
              cases h
              have ih := build_expr_error_ref r scope m
                (fun g hg => hf g (by simp [fnsOf, List.mem_append, hg]))
                (fun c2 hc2 => hc c2 (by simp [condsOf, List.mem_append, hc2])) hr
              rcases ih with ⟨n, hn1, hn2, hn3⟩
              exact ⟨n, by simp [refsOf, List.mem_append, hn1], hn2, hn3⟩
          | ok rs => rw [hr] at h; cases h
  | .caseE whens elseE, scope, m => by
      intro hf hc h
      cases elseE with
      | none =>
          simp only [_build_expr] at h
          cases hw : whenParts whens scope with
          | error m2 =>
              rw [hw] at h
              cases h
              have ih := whenParts_error_ref whens scope m
                (fun g hg => hf g (by simpa [fnsOf] using hg))
                (fun c2 hc2 => hc c2 (by simp [condsOf, List.mem_append, hc2])) hw
              rcases ih with ⟨n, hn1, hn2, hn3⟩
              exact ⟨n, by simpa [refsOf] using hn1, hn2, hn3⟩
          | ok ws => rw [hw] at h; cases h
      | some ee =>
          simp only [_build_expr] at h
          cases hw : whenParts whens scope with
          | error m2 =>
              rw [hw] at h
              cases h
              have ih := whenParts_error_ref whens scope m
                (fun g hg => hf g (by simp [fnsOf, List.mem_append, hg]))
                (fun c2 hc2 => hc c2 (by simp [condsOf, List.mem_append, hc2])) hw
              rcases ih with ⟨n, hn1, hn2, hn3⟩
              exact ⟨n, by simp [refsOf, List.mem_append, hn1], hn2, hn3⟩
          | ok ws =>
              rw [hw] at h
              cases he : _build_expr ee scope with
              | error m2 =>
                  rw [he] at h
                  cases h
                  have ih := build_expr_error_ref ee scope m
                    (fun g hg => hf g (by simp [fnsOf, List.mem_append, hg]))
                    (fun c2 hc2 => hc c2 (by simp [condsOf, List.mem_append, hc2])) he
                  rcases ih with ⟨n, hn1, hn2, hn3⟩
                  exact ⟨n, by simp [refsOf, List.mem_append, hn1], hn2, hn3⟩
              | ok es => rw [he] at h; cases h

/-- List version of `build_expr_error_ref`. -/
theorem exprArgs_error_ref : ∀ (es : List Expr) (scope : List String) (m : String),
    (∀ f ∈ fnsOfList es, pyUpper f ∈ _ALLOWED_FUNCS) →
    (∀ c ∈ condsOfList es, wfCond c = true) →
    exprArgs es scope = .error m →
    ∃ n, n ∈ refsOfList es ∧ n ∉ scope ∧ m = "Undefined ref: " ++ n
  | [], scope, m => by
      intro _ _ h; cases h
  | e :: es, scope, m => by
      intro hf hc h
      simp only [exprArgs] at h
      cases he : _build_expr e scope with
      | error m2 =>
          rw [he] at h
          cases h
          have ih := build_expr_error_ref e scope m
            (fun g hg => hf g (by simp [fnsOfList, List.mem_append, hg]))
            (fun c2 hc2 => hc c2 (by simp [condsOfList, List.mem_append, hc2])) he
          rcases ih with ⟨n, hn1, hn2, hn3⟩
          exact ⟨n, by simp [refsOfList, List.mem_append, hn1], hn2, hn3⟩
      | ok s =>
          rw [he] at h
          cases hr : exprArgs es scope with
          | error m2 =>
              rw [hr] at h
              cases h
              have ih := exprArgs_error_ref es scope m
                (fun g hg => hf g (by simp [fnsOfList, List.mem_append, hg]))
                (fun c2 hc2 => hc c2 (by simp [condsOfList, List.mem_append, hc2])) hr
              rcases ih with ⟨n, hn1, hn2, hn3⟩
              exact ⟨n, by simp [refsOfList, List.mem_append, hn1], hn2, hn3⟩
          | ok rest => rw [hr] at h; cases h

/-- `case`-arm version of `build_expr_error_ref` (wellformed guards never
raise, so a failure comes from an arm's result expression). -/
theorem whenParts_error_ref : ∀ (ws : List (Cond × Expr)) (scope : List String) (m : String),
    (∀ f ∈ fnsOfWhens ws, pyUpper f ∈ _ALLOWED_FUNCS) →
    (∀ c ∈ condsOfWhens ws, wfCond c = true) →
    whenParts ws scope = .error m →
    ∃ n, n ∈ refsOfWhens ws ∧ n ∉ scope ∧ m = "Undefined ref: " ++ n
  | [], scope, m => by
      intro _ _ h; cases h
  | ⟨c, t⟩ :: ws, scope, m => by
      intro hf hc h
      simp only [whenParts] at h
      cases hcc : _build_condition c with
      | error m2 =>
          have hwfc : wfCond c = true := hc c (by simp [condsOfWhens])
          rcases (build_condition_ok_iff c).mpr hwfc with ⟨s, hs⟩
          rw [hcc] at hs; cases hs
      | ok cs =>
          rw [hcc] at h
          cases ht : _build_expr t scope with
          | error m2 =>
              rw [ht] at h
              cases h
              have ih := build_expr_error_ref t scope m
                (fun g hg => hf g (by simp [fnsOfWhens, List.mem_append, hg]))
                (fun c2 hc2 => hc c2 (by simp [condsOfWhens, List.mem_append, hc2])) ht
              rcases ih with ⟨n, hn1, hn2, hn3⟩
              exact ⟨n, by simp [refsOfWhens, List.mem_append, hn1], hn2, hn3⟩
          | ok ts =>
              rw [ht] at h
              cases hr : whenParts ws scope with
              | error m2 =>
                  rw [hr] at h
                  cases h
                  have ih := whenParts_error_ref ws scope m
                    (fun g hg => hf g (by simp [fnsOfWhens, List.mem_append, hg]))
                    (fun c2 hc2 => hc c2 (by simp [condsOfWhens, List.mem_append, hc2])) hr
                  rcases ih with ⟨n, hn1, hn2, hn3⟩
                  exact ⟨n, by simp [refsOfWhens, List.mem_append, hn1], hn2, hn3⟩
              | ok rest => rw [hr] at h; cases h

end

/-- Completeness of `_build_expr`: the side conditions suffice for
successful compilation. -/
theorem build_expr_ok_of_side (e : Expr) (scope : List String)
    (hr : ∀ n ∈ refsOf e, n ∈ scope)
    (hf : ∀ f ∈ fnsOf e, pyUpper f ∈ _ALLOWED_FUNCS)
    (hc : ∀ c ∈ condsOf e, wfCond c = true) :
    ∃ s, _build_expr e scope = .ok s := by
  cases h : _build_expr e scope with
  | ok s => exact ⟨s, rfl⟩
  | error m =>
      rcases build_expr_error_ref e scope m hf hc h with ⟨n, hn1, hn2, _⟩
      exact absurd (hr n hn1) hn2

mutual

/-- `_build_expr` consults its scope only through membership tests, so two
scope representations with the same members compile every expression to
the same result (the Python `in_scope` set's iteration order is never
used). -/
theorem build_expr_scope_ext : ∀ (e : Expr) (s1 s2 : List String),
    (∀ n : String, n ∈ s1 ↔ n ∈ s2) → _build_expr e s1 = _build_expr e s2
  | .bare t, s1, s2 => by intro _; rfl
  | .col c, s1, s2 => by intro _; rfl
  | .val v, s1, s2 => by intro _; rfl
  | .ref n, s1, s2 => by
      intro h
      simp only [_build_expr]
      by_cases hn : n ∈ s1
      · rw [if_pos hn, if_pos ((h n).mp hn)]
      · rw [if_neg hn, if_neg (fun hx => hn ((h n).mpr hx))]
  | .fn name args, s1, s2 => by
      intro h
      simp only [_build_expr]
      rw [exprArgs_scope_ext args s1 s2 h]
  | .bop o l r, s1, s2 => by
      intro h
      simp only [_build_expr]
      rw [build_expr_scope_ext l s1 s2 h, build_expr_scope_ext r s1 s2 h]
  | .caseE whens elseE, s1, s2 => by
      intro h
      cases elseE with
      | none =>
          simp only [_build_expr]
          rw [whenParts_scope_ext whens s1 s2 h]
      | some ee =>
          simp only [_build_expr]
          rw [whenParts_scope_ext whens s1 s2 h, build_expr_scope_ext ee s1 s2 h]

/-- List version of `build_expr_scope_ext`. -/
theorem exprArgs_scope_ext : ∀ (es : List Expr) (s1 s2 : List String),
    (∀ n : String, n ∈ s1 ↔ n ∈ s2) → exprArgs es s1 = exprArgs es s2
  | [], s1, s2 => by intro _; rfl
  | e :: es, s1, s2 => by
      intro h
      simp only [exprArgs]
      rw [build_expr_scope_ext e s1 s2 h, exprArgs_scope_ext es s1 s2 h]

/-- `case`-arm version of `build_expr_scope_ext`. -/
theorem whenParts_scope_ext : ∀ (ws : List (Cond × Expr)) (s1 s2 : List String),
    (∀ n : String, n ∈ s1 ↔ n ∈ s2) → whenParts ws s1 = whenParts ws s2
  | [], s1, s2 => by intro _; rfl
  | ⟨c, t⟩ :: ws, s1, s2 => by
      intro h
      simp only [whenParts]
      rw [build_expr_scope_ext t s1 s2 h, whenParts_scope_ext ws s1 s2 h]

end

/-- The scope returned by the CTE loop is the starting scope followed by
the names of all named expressions, in order. -/
theorem compileNamedExprs_scope : ∀ (nes : List NamedExpr) (scope0 cols fs : List String),
    compileNamedExprs nes scope0 = .ok (cols, fs) →
    fs = scope0 ++ nes.map NamedExpr.name
  | [], scope0, cols, fs => by
      intro h
      simp only [compileNamedExprs] at h
      cases h; simp
  | ne :: nes, scope0, cols, fs => by
      intro h
      simp only [compileNamedExprs] at h
      cases he : _build_expr ne.expr scope0 with
      | error m => rw [he] at h; cases h
      | ok s =>
          rw [he] at h
          cases hr : compileNamedExprs nes (scope0 ++ [ne.name]) with
          | error m => rw [hr] at h; cases h
          | ok out =>
              rw [hr] at h
              cases h
              have := compileNamedExprs_scope nes (scope0 ++ [ne.name]) out.1 out.2 (by
                rw [hr])
              simpa [List.append_assoc] using this

/-- Success of the CTE loop is equivalent to each entry compiling against
the scope made of the starting scope plus the names of the strictly
earlier entries. -/
theorem compileNamedExprs_ok_iff : ∀ (nes : List NamedExpr) (scope0 : List String),
    (∃ out, compileNamedExprs nes scope0 = .ok out) ↔
    (∀ i (hi : i < nes.length),
      ∃ s, _build_expr (nes.get ⟨i, hi⟩).expr
             (scope0 ++ ((nes.take i).map NamedExpr.name)) = .ok s)
  | [], scope0 => by
      simp [compileNamedExprs]
  | ne :: nes, scope0 => by
      have ih := compileNamedExprs_ok_iff nes (scope0 ++ [ne.name])
      constructor
      · rintro ⟨out, hout⟩ i hi
        simp only [compileNamedExprs] at hout
        cases he : _build_expr ne.expr scope0 with
        | error m => rw [he] at hout; cases hout
        | ok s =>
            rw [he] at hout
            cases hr : compileNamedExprs nes (scope0 ++ [ne.name]) with
            | error m => rw [hr] at hout; cases hout
            | ok out2 =>
                match i with
                | 0 => exact ⟨s, by simpa using he⟩
                | Nat.succ j =>
                    have hj : j < nes.length := Nat.lt_of_succ_lt_succ hi
                    have := (ih.mp ⟨out2, hr⟩) j hj
                    rcases this with ⟨s2, hs2⟩
                    refine ⟨s2, ?_⟩
                    simpa [List.append_assoc] using hs2
      · intro hall
        rcases hall 0 (Nat.succ_pos _) with ⟨s, hs⟩
        simp only [List.take_zero, List.map_nil, List.append_nil, List.get] at hs
        have htail : ∀ j (hj : j < nes.length),
            ∃ s2, _build_expr (nes.get ⟨j, hj⟩).expr
              ((scope0 ++ [ne.name]) ++ ((nes.take j).map NamedExpr.name)) = .ok s2 := by
          intro j hj
          have := hall (j + 1) (Nat.succ_lt_succ hj)
          rcases this with ⟨s2, hs2⟩
          refine ⟨s2, ?_⟩
          simpa [List.append_assoc] using hs2
        rcases ih.mpr htail with ⟨out, hout⟩
        refine ⟨((s ++ " AS " ++ _q_ident ne.name) :: out.1, out.2), ?_⟩
        simp only [compileNamedExprs, hs, hout]

/-- Success of the aggregation loop certifies each aggregation expression
compiles against the outer scope. -/
theorem aggSelects_ok_each : ∀ (ags : List Aggregation) (scope : List String) (out : List String),
    aggSelects ags scope = .ok out →
    ∀ a ∈ ags, pyUpper a.fn ∈ _ALLOWED_AGG_FUNCS ∧ ∃ s, _build_expr a.expr scope = .ok s
  | [], scope, out => by
      intro _ a ha; cases ha
  | ag :: ags, scope, out => by
      intro h a ha
      simp only [aggSelects] at h
      by_cases hfn : pyUpper ag.fn ∈ _ALLOWED_AGG_FUNCS
      · rw [if_pos hfn] at h
        cases he : _build_expr ag.expr scope with
        | error m => rw [he] at h; cases h
        | ok s =>
            rw [he] at h
            cases hr : aggSelects ags scope with
            | error m => rw [hr] at h; cases h
            | ok tl =>
                rcases List.mem_cons.mp ha with rfl | ha2
                · exact ⟨hfn, s, he⟩
                · exact aggSelects_ok_each ags scope tl hr a ha2
      · rw [if_neg hfn] at h; cases h

/-- `_build_where` succeeding certifies every clause compiled. -/
theorem whereParts_ok_each : ∀ (ws : List WhereSpec) (ps : List String),
    whereParts ws = .ok ps → ∀ w ∈ ws, ∃ s, _build_where_clause w = .ok s
  | [], ps => by
      intro _ w hw; cases hw
  | w0 :: ws, ps => by
      intro h w hw
      simp only [whereParts] at h
      cases h0 : _build_where_clause w0 with
      | error m => rw [h0] at h; cases h
      | ok p =>
          rw [h0] at h
          cases hr : whereParts ws with
          | error m => rw [hr] at h; cases h
          | ok rest =>
              rcases List.mem_cons.mp hw with rfl | hw2
              · exact ⟨p, h0⟩
              · exact whereParts_ok_each ws rest hr w hw2

/-- From the success of the whole build, extract the success of the
named-expression chain and of the aggregation loop over the outer scope. -/
theorem build_ok_parts (p : ProcessSpec) (sql : String)
    (h : build_duckdb_sql_from_process p = .ok sql) :
    ∃ cte scope, compileNamedExprs p.named_expressions [] = .ok (cte, scope) ∧
      ∃ ag, aggSelects p.aggregations (scope ++ p.group_by) = .ok ag := by
  unfold build_duckdb_sql_from_process at h
  cases hw : _build_where p.whereClauses with
  | error m => rw [hw] at h; cases h
  | ok wsql =>
      rw [hw] at h
      cases hn : compileNamedExprs p.named_expressions [] with
      | error m => rw [hn] at h; cases h
      | ok nc =>
          obtain ⟨cte, scope⟩ := nc
          rw [hn] at h
          refine ⟨cte, scope, rfl, ?_⟩
          cases hg : aggSelects p.aggregations (scope ++ p.group_by) with
          | error m => simp only [hg] at h; cases h
          | ok ag => exact ⟨ag, rfl⟩

/-- CLAIM C1. A `NamedRef` inside a named expression may only reference
names introduced by strictly earlier entries of the `named_expressions`
chain: (1) a successfully compiled chain has every `ref` of entry `i`
among the names of entries `0..i-1`; (2) a chain whose entry `i` contains
a `ref` to a name declared later or not at all fails to compile; (3) such
a failure is reported as an undefined-reference error (`Undefined ref: n`
for the out-of-scope name `n`) whenever functions and condition shapes are
otherwise fine; (4) aggregation expressions compile against the scope
consisting of all named-expression names plus all `group_by` column
names. -/
theorem claim_c1_named_ref_scoping :
    (∀ (nes : List NamedExpr) (out : List String × List String),
       compileNamedExprs nes [] = .ok out →
       ∀ i (hi : i < nes.length), ∀ n ∈ refsOf (nes.get ⟨i, hi⟩).expr,
         n ∈ (nes.take i).map NamedExpr.name)
  ∧ (∀ (nes : List NamedExpr) (i : Nat) (hi : i < nes.length),
       (∃ n, n ∈ refsOf (nes.get ⟨i, hi⟩).expr ∧ n ∉ (nes.take i).map NamedExpr.name) →
       ∀ out, compileNamedExprs nes [] ≠ .ok out)
  ∧ (∀ (e : Expr) (scope : List String) (m : String),
       (∀ f ∈ fnsOf e, pyUpper f ∈ _ALLOWED_FUNCS) →
       (∀ c ∈ condsOf e, wfCond c = true) →
       _build_expr e scope = .error m →
       ∃ n, n ∈ refsOf e ∧ n ∉ scope ∧ m = "Undefined ref: " ++ n)
  ∧ (∀ (p : ProcessSpec) (sql : String),
       build_duckdb_sql_from_process p = .ok sql →
       ∀ a ∈ p.aggregations,
         ∃ s, _build_expr a.expr (p.named_expressions.map NamedExpr.name ++ p.group_by) = .ok s) := by
  refine ⟨?_, ?_, ?_, ?_⟩
  · intro nes out hout i hi n hn
    have hok := (compileNamedExprs_ok_iff nes []).mp ⟨out, hout⟩ i hi
    rcases hok with ⟨s, hs⟩
    have := (build_expr_ok_sound _ _ _ hs).1 n hn
    simpa using this
  · intro nes i hi hex out hout
    rcases hex with ⟨n, hn1, hn2⟩
    have hok := (compileNamedExprs_ok_iff nes []).mp ⟨out, hout⟩ i hi
    rcases hok with ⟨s, hs⟩
    have := (build_expr_ok_sound _ _ _ hs).1 n hn1
    simp only [List.nil_append] at this
    exact absurd this hn2
  · intro e scope m hf hc herr
    exact build_expr_error_ref e scope m hf hc herr
  · intro p sql h a ha
    rcases build_ok_parts p sql h with ⟨cte, scope, hn, ag, hg⟩
    have hscope := compileNamedExprs_scope p.named_expressions [] cte scope hn
    simp only [List.nil_append] at hscope
    subst hscope
    exact (aggSelects_ok_each p.aggregations _ ag hg a ha).2

/-- Witness for C1: the chain `a := ref b; b := col x` (a forward
reference) cannot compile. -/
theorem claim_c1_witness :
    compileNamedExprs [⟨"a", Expr.ref "b"⟩, ⟨"b", Expr.col "x"⟩] [] ≠
      .ok ([], ["a", "b"]) :=
  claim_c1_named_ref_scoping.2.1
    [⟨"a", Expr.ref "b"⟩, ⟨"b", Expr.col "x"⟩] 0 (by decide)
    ⟨"b", by simp [refsOf], by simp⟩ ([], ["a", "b"])

/-- CLAIM C2. Function names are whitelisted: a `fn` node whose
upper-cased name is outside `_ALLOWED_FUNCS` compiles to an
unsupported-function error (before any SQL text is produced — the check
precedes argument compilation), any successful compilation only ever
contains whitelisted function names, and the whitelist is exactly the
aggregate set plus the scalar set. -/
theorem claim_c2_function_whitelist :
    (∀ (name : String) (args : List Expr) (scope : List String),
       pyUpper name ∉ _ALLOWED_FUNCS →
       _build_expr (Expr.fn name args) scope = .error ("Unsupported function: " ++ pyUpper name))
  ∧ (∀ (e : Expr) (scope : List String) (s : String),
       _build_expr e scope = .ok s → ∀ f ∈ fnsOf e, pyUpper f ∈ _ALLOWED_FUNCS)
  ∧ _ALLOWED_FUNCS = ["SUM", "COUNT", "AVG", "MIN", "MAX"] ++
      ["COALESCE", "ABS", "ROUND", "FLOOR", "CEIL", "NULLIF"] := by
  refine ⟨?_, ?_, rfl⟩
  · intro name args scope h
    simp only [_build_expr]
    rw [if_neg h]
  · intro e scope s h
    exact (build_expr_ok_sound e scope s h).2.1

/-- Witness for C2: compiling `EXEC(x)` fails with the
unsupported-function error. -/
theorem claim_c2_witness :
    _build_expr (Expr.fn "EXEC" [Expr.col "x"]) [] =
      .error ("Unsupported function: " ++ pyUpper "EXEC") :=
  claim_c2_function_whitelist.1 "EXEC" [Expr.col "x"] [] (by decide)

/-- COUNTEREXAMPLE to C3. A CASE-guard condition with the unknown operator
`frob` does NOT fail: `_build_condition` renders the upper-cased operator
verbatim (only `_build_where` checks `_ALLOWED_OPS`). -/
theorem claim_c3_counterexample :
    _build_condition (Cond.cmp "c" "frob" (CondVal.clit (Lit.lstr "v"))) =
      .ok ("\"c\" FROB \x27v\x27")
    ∧ "FROB" ∉ _ALLOWED_OPS := by
  exact ⟨rfl, by decide⟩

/-- CLAIM C3 (amended). Flat `where` clauses reject any operator outside
the fixed set with an unsupported-operator error before any SQL is
returned; but `_build_condition` (used for CASE-expression guards) checks
no whitelist: any operator other than the specially handled
`IS NULL`/`IS NOT NULL`/`IN`/`NOT IN`/`BETWEEN` is rendered verbatim
(upper-cased) without error. -/
theorem claim_c3_amended :
    (∀ (ws : List WhereSpec) (w : WhereSpec), w ∈ ws →
       pyStrip (pyUpper w.op) ∉ _ALLOWED_OPS →
       (∀ s, _build_where ws ≠ .ok s) ∧
       _build_where_clause w = .error ("Unsupported operator: " ++ pyStrip (pyUpper w.op)))
  ∧ (∀ (col op : String) (v : Lit),
       pyUpper op ∉ (["IS NULL", "IS NOT NULL", "IN", "NOT IN", "BETWEEN"] : List String) →
       _build_condition (Cond.cmp col op (CondVal.clit v)) =
         .ok (_q_ident col ++ " " ++ pyUpper op ++ " " ++ _lit v)) := by
  constructor
  · intro ws w hmem hop
    have hclause : _build_where_clause w = .error ("Unsupported operator: " ++ pyStrip (pyUpper w.op)) := by
      simp only [_build_where_clause]
      rw [if_neg hop]
    refine ⟨?_, hclause⟩
    intro s hok
    unfold _build_where at hok
    cases hp : whereParts ws with
    | error m => rw [hp] at hok; cases hok
    | ok ps =>
        rcases whereParts_ok_each ws ps hp w hmem with ⟨s2, hs2⟩
        rw [hclause] at hs2
        cases hs2
  · intro col op v hop
    have h1 : ¬(pyUpper op = "IS NULL" ∨ pyUpper op = "IS NOT NULL") := by
      rintro (hc | hc) <;> exact hop (by simp [hc])
    have h2 : ¬(pyUpper op = "IN" ∨ pyUpper op = "NOT IN") := by
      rintro (hc | hc) <;> exact hop (by simp [hc])
    have h3 : ¬(pyUpper op = "BETWEEN") := fun hc => hop (by simp [hc])
    simp only [_build_condition]
    rw [if_neg h1, if_neg h2, if_neg h3]
    rfl

/-- Witness for C3 (amended): a flat where clause with operator `frob`
never yields SQL, while the same operator inside a condition tree renders
verbatim. -/
theorem claim_c3_amended_witness :
    _build_where [{ column := "a", op := "frob", value := some (Lit.lstr "v") }] ≠
      .ok "WHERE \"a\" FROB \x27v\x27"
    ∧ _build_condition (Cond.cmp "a" "frob" (CondVal.clit (Lit.lstr "v"))) =
        .ok (_q_ident "a" ++ " " ++ pyUpper "frob" ++ " " ++ _lit (Lit.lstr "v")) := by
  constructor
  · exact (claim_c3_amended.1 [{ column := "a", op := "frob", value := some (Lit.lstr "v") }]
      { column := "a", op := "frob", value := some (Lit.lstr "v") }
      (List.Mem.head _) (by decide)).1 "WHERE \"a\" FROB \x27v\x27"
  · exact claim_c3_amended.2 "a" "frob" (Lit.lstr "v") (by decide)

/-- CLAIM C7. The process compiler is deterministic: it is a pure function
of the parsed spec (compiling twice yields the same text), and the only
state consulted during expression compilation — the `in_scope` set — is
consulted exclusively through membership, so any two representations of
the same name set give identical output (no unordered iteration can
influence clause construction). -/
theorem claim_c7_determinism :
    (∀ p : ProcessSpec,
       build_duckdb_sql_from_process p = build_duckdb_sql_from_process p)
  ∧ (∀ (e : Expr) (s1 s2 : List String), (∀ n : String, n ∈ s1 ↔ n ∈ s2) →
       _build_expr e s1 = _build_expr e s2) :=
  ⟨fun _ => rfl, build_expr_scope_ext⟩

/-- Witness for C7: two differently ordered (and duplicated)
representations of the scope set `{a, b}` compile a `ref` identically. -/
theorem claim_c7_witness :
    _build_expr (Expr.ref "a") ["a", "b"] = _build_expr (Expr.ref "a") ["b", "a", "a"] :=
  claim_c7_determinism.2 (Expr.ref "a") ["a", "b"] ["b", "a", "a"]
    (by intro n; simp [List.mem_cons]; tauto)

/-- COUNTEREXAMPLE to C8. The source renders `LIMIT` for ANY Python
`int`, including negative ones (`isinstance(limit, int)` does not test
sign): a spec with `limit = -1` produces SQL ending in `LIMIT -1`,
contradicting "no LIMIT clause appears when limit is not a non-negative
integer". -/
theorem claim_c8_counterexample :
    build_duckdb_sql_from_process
      { source := "t", group_by := ["g"], limit := some (JVal.jint (-1)) } =
      .ok "SELECT\n        \"g\"\n        FROM \"t\"\n        \n        GROUP BY \"g\"\n        \n        LIMIT -1"
    ∧ ((-1 : Int) < 0) := by
  exact ⟨rfl, by decide⟩

/-- CLAIM C8 (amended). The LIMIT fragment is rendered exactly when the
spec's `limit` is a Python `int` (negative integers included, and `bool`,
a Python `int` subclass, renders as 1/0); absent, string-valued (and other
non-int) limits render nothing; and the build output depends on `limit`
only through this fragment. -/
theorem claim_c8_amended :
    (∀ n : Int, limitSql (some (JVal.jint n)) = "LIMIT " ++ toString n)
  ∧ limitSql none = ""
  ∧ (∀ s, limitSql (some (JVal.jstr s)) = "")
  ∧ (∀ b, limitSql (some (JVal.jbool b)) = "LIMIT " ++ toString (pyToInt (JVal.jbool b)))
  ∧ (∀ (p : ProcessSpec) (v1 v2 : Option JVal), limitSql v1 = limitSql v2 →
       build_duckdb_sql_from_process { p with limit := v1 } =
       build_duckdb_sql_from_process { p with limit := v2 }) := by
  refine ⟨fun n => rfl, rfl, fun s => rfl, fun b => by cases b <;> rfl, ?_⟩
  intro p v1 v2 h
  simp only [build_duckdb_sql_from_process, h]

/-- Witness for C8 (amended): a string-valued limit builds the same SQL as
an absent one, and `limit = -1` renders the fragment `LIMIT -1`. -/
theorem claim_c8_amended_witness :
    build_duckdb_sql_from_process
      { source := "t", group_by := ["g"], limit := some (JVal.jstr "many") } =
    build_duckdb_sql_from_process
      { source := "t", group_by := ["g"], limit := none }
    ∧ limitSql (some (JVal.jint (-1))) = "LIMIT " ++ toString (-1 : Int) := by
  constructor
  · exact claim_c8_amended.2.2.2.2 { source := "t", group_by := ["g"] }
      (some (JVal.jstr "many")) none rfl
  · exact claim_c8_amended.1 (-1)

/-- COUNTEREXAMPLE to C9. An order-by `expr` given as the bare string name
`"2"` does not render as the quoted column identifier `"2"`: digit-only
strings are treated as positional references and rendered bare. -/
theorem claim_c9_counterexample :
    orderEntrySql { expr := ObExpr.ostr "2" } [] = .ok "2 ASC"
    ∧ _q_ident "2" ++ " ASC" = "\"2\" ASC"
    ∧ ("2 ASC" : String) ≠ "\"2\" ASC" := by
  exact ⟨rfl, rfl, by decide⟩

/-- CLAIM C9 (amended). Each order-by entry renders as a bare integer when
`expr` is an integer, bare also when `expr` is a digit-only string
(treated as a positional reference), as a compiled expression when given
as a tree, and as a quoted column identifier only for non-digit bare
string names; every entry carries a trailing ASC/DESC, ascending when
`asc` is absent. -/
theorem claim_c9_amended :
    (∀ (n : Int) (scope : List String) (a : Option Bool),
       orderEntrySql ⟨ObExpr.oint n, a⟩ scope =
         .ok (toString n ++ " " ++ (if a.getD true then "ASC" else "DESC")))
  ∧ (∀ (s : String) (scope : List String) (a : Option Bool), pyIsdigit s = true →
       orderEntrySql ⟨ObExpr.ostr s, a⟩ scope =
         .ok (s ++ " " ++ (if a.getD true then "ASC" else "DESC")))
  ∧ (∀ (s : String) (scope : List String) (a : Option Bool), pyIsdigit s = false →
       orderEntrySql ⟨ObExpr.ostr s, a⟩ scope =
         .ok (_q_ident s ++ " " ++ (if a.getD true then "ASC" else "DESC")))
  ∧ (∀ (t : Expr) (scope : List String) (a : Option Bool) (sql : String),
       _build_expr t scope = .ok sql →
       orderEntrySql ⟨ObExpr.otree t, a⟩ scope =
         .ok (sql ++ " " ++ (if a.getD true then "ASC" else "DESC")))
  ∧ (∀ (e : ObExpr) (scope : List String),
       orderEntrySql ⟨e, none⟩ scope = orderEntrySql ⟨e, some true⟩ scope) := by
  refine ⟨?_, ?_, ?_, ?_, ?_⟩
  · intro n scope a; rfl
  · intro s scope a h
    simp [orderEntrySql, orderExprSql, h]
  · intro s scope a h
    simp [orderEntrySql, orderExprSql, h]
  · intro t scope a sql h
    simp [orderEntrySql, orderExprSql, h]
  · intro e scope; rfl

/-- Witness for C9 (amended): the digit-string `"2"` renders bare, the
name `"seg"` renders quoted with the default ASC, and a tree renders as
its compiled expression. -/
theorem claim_c9_amended_witness :
    orderEntrySql ⟨ObExpr.ostr "2", some false⟩ [] = .ok ("2" ++ " " ++ "DESC")
    ∧ orderEntrySql ⟨ObExpr.ostr "seg", none⟩ [] = .ok (_q_ident "seg" ++ " " ++ "ASC")
    ∧ orderEntrySql ⟨ObExpr.otree (Expr.col "x"), none⟩ [] =
        .ok (_q_ident "x" ++ " " ++ "ASC") := by
  refine ⟨?_, ?_, ?_⟩
  · simpa using claim_c9_amended.2.1 "2" [] (some false) (by decide)
  · simpa using claim_c9_amended.2.2.1 "seg" [] none (by decide)
  · simpa using claim_c9_amended.2.2.2.1 (Expr.col "x") [] none (_q_ident "x") rfl

end SqlGen

namespace SchemaUtils

/-- Looking up a column right after assigning it yields the assigned
series. -/
theorem dfGet?_dfSet_self : ∀ (df : DataFrame) (n : String) (s : Series),
    dfGet? (dfSet df n s) n = some s
  | [], n, s => by simp [dfSet, dfGet?, List.find?]
  | p :: rest, n, s => by
      cases h : (p.1 == n) with
      | true => simp [dfSet, dfGet?, List.find?, h]
      | false =>
          have ih := dfGet?_dfSet_self rest n s
          simp only [dfGet?] at ih
          simp [dfSet, dfGet?, List.find?, h, ih]

/-- Two successive assignments to the same column collapse to the last. -/
theorem dfSet_dfSet : ∀ (df : DataFrame) (n : String) (s s2 : Series),
    dfSet (dfSet df n s) n s2 = dfSet df n s2
  | [], n, s, s2 => by simp [dfSet]
  | p :: rest, n, s, s2 => by
      cases h : (p.1 == n) with
      | true => simp [dfSet, h]
      | false => simp [dfSet, h, dfSet_dfSet rest n s s2]

/-- The coercion loop threads its error accumulator by appending: the
final error list is the starting list followed by one entry per failing
field, for all fields (a failure never stops the loop). -/
theorem coerceLoop_spec : ∀ (fields : List Field) (df : DataFrame) (errs : List String),
    coerceLoop fields df errs = ((coerceLoop fields df []).1, errs ++ fieldErrors fields df)
  | [], df, errs => by simp [coerceLoop, fieldErrors]
  | f :: rest, df, errs => by
      rcases hfe : _coerce_field f df with ⟨df2, err⟩
      cases err with
      | none =>
          simp only [coerceLoop, fieldErrors, hfe]
          rw [coerceLoop_spec rest df2 errs, coerceLoop_spec rest df2 []]
          simp
      | some e =>
          simp only [coerceLoop, fieldErrors, hfe]
          rw [coerceLoop_spec rest df2 (errs ++ ["[coerce] " ++ f.name ++ ": " ++ e]),
              coerceLoop_spec rest df2 ([] ++ ["[coerce] " ++ f.name ++ ": " ++ e])]
          simp

/-- COUNTEREXAMPLE to C4 as stated: the collected entry for a failing
field is not of the form `<field>: <cause>` — the code prefixes it with
`[coerce] `. (The aggregation behavior itself is as claimed; see the
amended theorem.) -/
theorem claim_c4_counterexample :
    _coerce_types [("a", ⟨Dtype.dstring, [some (.vstr "x")]⟩)]
        ⟨[{ name := "a", type := "integer", pandasType := some "Int64" }], []⟩ =
      .error ("Type coercion failed:\n- [coerce] a: Unable to parse string \"x\" at position 0")
    ∧ ("[coerce] a: Unable to parse string \"x\" at position 0" : String) ≠
        "a: " ++ "Unable to parse string \"x\" at position 0" := by
  exact ⟨rfl, by decide⟩

/-- CLAIM C4 (amended). Type coercion is not fail-fast: the loop processes
every schema field, collecting one entry per failing field of the form
`[coerce] <field>: <cause>`; if any entry was collected it raises a single
aggregated error joining all of them, otherwise it returns the new typed
DataFrame. -/
theorem claim_c4_amended : ∀ (df : DataFrame) (schema : Schema),
    (coerceLoop schema.fields df []).2 = fieldErrors schema.fields df
    ∧ (fieldErrors schema.fields df = [] →
        _coerce_types df schema = .ok (coerceLoop schema.fields df []).1)
    ∧ (fieldErrors schema.fields df ≠ [] →
        _coerce_types df schema =
          .error ("Type coercion failed:\n- " ++
                  String.intercalate "\n- " (fieldErrors schema.fields df))) := by
  intro df schema
  have hspec := coerceLoop_spec schema.fields df []
  have h2 : (coerceLoop schema.fields df []).2 = fieldErrors schema.fields df := by
    conv_lhs => rw [hspec]
    simp
  refine ⟨h2, ?_, ?_⟩
  · intro hnil
    simp only [_coerce_types]
    rw [h2, hnil]
    simp
  · intro hne
    simp only [_coerce_types]
    rw [h2]
    rw [if_neg (by simpa [List.isEmpty_iff] using hne)]

/-- Witness for C4 (amended): a schema with two failing integer fields
(one missing its `pandasType`, one with an unparsable value) and one sound
string field aggregates exactly the two entries into one raised error. -/
theorem claim_c4_amended_witness :
    _coerce_types
      [("a", ⟨Dtype.dstring, [some (.vstr "1")]⟩),
       ("b", ⟨Dtype.dstring, [some (.vstr "y")]⟩),
       ("c", ⟨Dtype.dstring, [some (.vstr "ok")]⟩)]
      ⟨[{ name := "a", type := "integer" },
        { name := "b", type := "integer", pandasType := some "Int64" },
        { name := "c", type := "string" }], []⟩ =
    .error ("Type coercion failed:\n- " ++ String.intercalate "\n- "
      (fieldErrors
        [{ name := "a", type := "integer" },
         { name := "b", type := "integer", pandasType := some "Int64" },
         { name := "c", type := "string" }]
        [("a", ⟨Dtype.dstring, [some (.vstr "1")]⟩),
         ("b", ⟨Dtype.dstring, [some (.vstr "y")]⟩),
         ("c", ⟨Dtype.dstring, [some (.vstr "ok")]⟩)])) :=
  (claim_c4_amended
    [("a", ⟨Dtype.dstring, [some (.vstr "1")]⟩),
     ("b", ⟨Dtype.dstring, [some (.vstr "y")]⟩),
     ("c", ⟨Dtype.dstring, [some (.vstr "ok")]⟩)]
    ⟨[{ name := "a", type := "integer" },
      { name := "b", type := "integer", pandasType := some "Int64" },
      { name := "c", type := "string" }], []⟩).2.2 (by decide)

/-- When every field is required or present (so the uncaught `KeyError`
path is never taken), the validation loop runs to completion in a single
pass and returns the starting accumulator followed by each field's
contribution in declaration order: the required-missing message for a
missing required field (its per-field checks skipped), or the field's
checks for a present column. -/
theorem validateLoop_spec : ∀ (fields : List Field) (df : DataFrame) (errs : List String),
    (∀ f ∈ fields, f.required = true ∨ (dfGet? df f.name).isSome = true) →
    validateLoop fields df errs = .ok (errs ++ (fields.map (fun f =>
      match dfGet? df f.name with
      | none => if f.required then ["[schema] required column missing: " ++ f.name] else []
      | some s => fieldChecks f s)).flatten)
  | [], df, errs => by
      intro _
      simp [validateLoop]
  | f :: rest, df, errs => by
      intro hp
      have hrest : ∀ g ∈ rest, g.required = true ∨ (dfGet? df g.name).isSome = true :=
        fun g hg => hp g (List.mem_cons_of_mem f hg)
      cases hg : dfGet? df f.name with
      | none =>
          have hreq : f.required = true := by
            rcases hp f (List.mem_cons_self f rest) with h | h
            · exact h
            · rw [hg] at h; cases h
          simp [validateLoop, hg, hreq,
            validateLoop_spec rest df
              (errs ++ ["[schema] required column missing: " ++ f.name]) hrest]
      | some s =>
          simp [validateLoop, hg,
            validateLoop_spec rest df (errs ++ fieldChecks f s) hrest]

/-- When every primary-key column is present, the primary-key check never
raises: it returns its (possibly empty) duplicate report. -/
theorem pkCheck_ok (df : DataFrame) (pk : List String)
    (h : ∀ c ∈ pk, (dfGet? df c).isSome = true) :
    ∃ es, pkCheck df pk = .ok es := by
  unfold pkCheck
  by_cases hemp : pk.isEmpty
  · rw [if_pos hemp]; exact ⟨[], rfl⟩
  · rw [if_neg hemp]
    have hany : (pk.any (fun c => (dfGet? df c).isNone)) = false := by
      rw [List.any_eq_false]
      intro c hc
      have := h c hc
      cases hcc : dfGet? df c with
      | none => rw [hcc] at this; cases this
      | some s => simp
    rw [hany]
    simp only [Bool.false_eq_true, if_false]
    by_cases hd : (dupIdx df pk).isEmpty
    · rw [if_pos hd]; exact ⟨[], rfl⟩
    · rw [if_neg hd]
      exact ⟨_, rfl⟩

/-- COUNTEREXAMPLE to C5 as stated: on a dataset missing a non-required
field the validator does not aggregate — reading `df[name]` raises an
uncaught `KeyError`, so a schema/dataset pair with zero violations is
rejected instead of accepted. -/
theorem claim_c5_counterexample :
    _validate [] ⟨[{ name := "x", type := "string" }], []⟩ =
      .error ("KeyError: \x27x\x27")
    ∧ validationErrors [] ⟨[{ name := "x", type := "string" }], []⟩ = []
    ∧ _validate [] ⟨[{ name := "x", type := "string" }], []⟩ ≠ .ok () := by
  refine ⟨rfl, rfl, ?_⟩
  intro h
  cases h

/-- CLAIM C5 (amended). Provided every schema field is required or its
column is present, and every primary-key column is present (otherwise an
uncaught `KeyError` aborts the pass instead), validation runs all checks
(required, nullability, pattern, enum, range, primary key) in one pass,
each check independently accumulating; a missing required field
contributes exactly its required-missing message with the per-field checks
skipped; if any violation was found, validation fails with exactly one
aggregated error listing every violation, and otherwise the dataset is
accepted. -/
theorem claim_c5_amended : ∀ (df : DataFrame) (schema : Schema),
    (∀ f ∈ schema.fields, f.required = true ∨ (dfGet? df f.name).isSome = true) →
    (∀ c ∈ schema.primaryKey, (dfGet? df c).isSome = true) →
    (validationErrors df schema = [] → _validate df schema = .ok ())
    ∧ (validationErrors df schema ≠ [] → _validate df schema =
        .error ("Schema validation failed:\n- " ++
                String.intercalate "\n- " (validationErrors df schema))) := by
  intro df schema h1 h2
  rcases pkCheck_ok df schema.primaryKey h2 with ⟨es, hes⟩
  have hloop := validateLoop_spec schema.fields df [] h1
  have hverr : validationErrors df schema = (schema.fields.map (fun f =>
      match dfGet? df f.name with
      | none => if f.required then ["[schema] required column missing: " ++ f.name] else []
      | some s => fieldChecks f s)).flatten ++ es := by
    unfold validationErrors
    rw [hes]
  have hflat : (([] : List String) ++ (schema.fields.map (fun f =>
      match dfGet? df f.name with
      | none => if f.required then ["[schema] required column missing: " ++ f.name] else []
      | some s => fieldChecks f s)).flatten) ++ es = validationErrors df schema := by
    rw [hverr]; simp
  constructor
  · intro hnil
    simp only [_validate, hloop, hes]
    rw [hflat, hnil]
    simp
  · intro hne
    simp only [_validate, hloop, hes]
    rw [hflat]
    rw [if_neg (by simpa [List.isEmpty_iff] using hne)]

/-- Witness for C5 (amended): a dataset whose required non-nullable column
contains a null is rejected with the single aggregated error listing the
null-check violation. -/
theorem claim_c5_amended_witness :
    _validate [("a", ⟨Dtype.dstring, [some (.vstr "x"), none]⟩)]
        ⟨[{ name := "a", type := "string", required := true, nullable := false }], []⟩ =
      .error ("Schema validation failed:\n- " ++ String.intercalate "\n- "
        (validationErrors [("a", ⟨Dtype.dstring, [some (.vstr "x"), none]⟩)]
          ⟨[{ name := "a", type := "string", required := true, nullable := false }], []⟩)) :=
  (claim_c5_amended [("a", ⟨Dtype.dstring, [some (.vstr "x"), none]⟩)]
    ⟨[{ name := "a", type := "string", required := true, nullable := false }], []⟩
    (by intro f hf; simp at hf; subst hf; left; rfl)
    (by intro c hc; cases hc)).2 (by decide)

/-- The `zeroPad7` transformation chain applied to an all-string column is
the cell-wise `pyZfill 7 ∘ pyStrip`. -/
theorem zeroPad7_series (raw : List (Option String)) :
    astypeString (zfillSeries 7 (astypeString
        (stripSeries ⟨Dtype.dstring, raw.map (Option.map Val.vstr)⟩))) =
      ⟨Dtype.dstring, raw.map (Option.map (fun t => Val.vstr (pyZfill 7 (pyStrip t))))⟩ := by
  simp only [stripSeries, astypeString, zfillSeries, List.map_map]
  congr 1
  apply List.map_congr_left
  intro o _
  cases o with
  | none => rfl
  | some t => rfl

/-- COUNTEREXAMPLE to C6 as stated: the value ` -1 ` (trimmed: `-1`) is
padded by Python's `str.zfill` to `-000001`, not left-padded with zeros to
`00000-1` — for sign-prefixed values the zeros are inserted after the
sign, so the added leading part is not all `0`s. -/
theorem claim_c6_counterexample :
    _coerce_types [("a", ⟨Dtype.dstring, [some (.vstr " -1 ")]⟩)]
        ⟨[{ name := "a", type := "string", logicalType := some "zeroPad7" }], []⟩ =
      .ok [("a", ⟨Dtype.dstring, [some (.vstr "-000001")]⟩)]
    ∧ ("-000001" : String) ≠ "00000" ++ "-1" := by
  exact ⟨rfl, by decide⟩

/-- CLAIM C6 (amended). For a `zeroPad7` field: the padded value always
has length `max 7 (length of the trimmed value)`; values of length ≥ 7
pass through unchanged; values shorter than 7 NOT starting with a sign are
left-padded with `0`s exactly as claimed; but values starting with `-` or
`+` keep the sign in front and have the `0`s inserted after it (Python
`str.zfill`); and the coercion path applies exactly
`pyZfill 7 ∘ pyStrip` cell-wise to the column. -/
theorem claim_c6_amended :
    (∀ s : String, (pyZfill 7 s).length = max 7 s.length)
  ∧ (∀ s : String, 7 ≤ s.length → pyZfill 7 s = s)
  ∧ (∀ s : String, s.length < 7 → s.data.head? ≠ some '-' → s.data.head? ≠ some '+' →
       pyZfill 7 s = ⟨List.replicate (7 - s.length) '0' ++ s.data⟩)
  ∧ (∀ (c : Char) (t : List Char), (c = '-' ∨ c = '+') →
       (⟨c :: t⟩ : String).length < 7 →
       pyZfill 7 ⟨c :: t⟩ = ⟨c :: (List.replicate (7 - (c :: t).length) '0' ++ t)⟩)
  ∧ (∀ (name : String) (raw : List (Option String)) (df : DataFrame),
       dfGet? df name = some ⟨Dtype.dstring, raw.map (Option.map Val.vstr)⟩ →
       _coerce_field { name := name, type := "string", logicalType := some "zeroPad7" } df =
         (dfSet df name ⟨Dtype.dstring,
            raw.map (Option.map (fun t => Val.vstr (pyZfill 7 (pyStrip t))))⟩, none)) := by
  refine ⟨?_, ?_, ?_, ?_, ?_⟩
  · intro s
    by_cases h : 7 ≤ s.length
    · simp only [pyZfill, if_pos h]
      omega
    · obtain ⟨l⟩ := s
      simp only [pyZfill, if_neg h]
      simp only [String.length] at h
      cases l with
      | nil => simp [zfillCore, String.length]
      | cons c rest =>
          by_cases hc : c = '-' ∨ c = '+'
          · simp only [zfillCore, if_pos hc, String.length, List.length_cons,
              List.length_append, List.length_replicate]
            omega
          · simp only [zfillCore, if_neg hc, String.length, List.length_cons,
              List.length_append, List.length_replicate]
            omega
  · intro s h
    simp [pyZfill, if_pos h]
  · intro s hlen hm hp
    obtain ⟨l⟩ := s
    simp only [String.length] at hlen
    cases l with
    | nil => simp [pyZfill, zfillCore]
    | cons c rest =>
        have hc : ¬(c = '-' ∨ c = '+') := by
          rintro (rfl | rfl)
          · exact hm rfl
          · exact hp rfl
        simp only [pyZfill, String.length, if_neg (by omega : ¬ 7 ≤ (c :: rest).length)]
        simp only [zfillCore, if_neg hc]
  · intro c t hsign hlen
    simp only [String.length] at hlen
    simp only [pyZfill, String.length, if_neg (by omega : ¬ 7 ≤ (c :: t).length)]
    simp only [zfillCore, if_pos hsign]
  · intro name raw df hdf
    simp only [_coerce_field, hdf, is_string_dtype, _coerce_convert]
    simp only [beq_self_eq_true, if_pos]
    simp
    rw [dfSet_dfSet, dfSet_dfSet]
    rw [zeroPad7_series raw]

/-- Witness for C6 (amended): length and pass-through facts at concrete
strings, and the coercion of the column holding ` -1 `. -/
theorem claim_c6_amended_witness :
    (pyZfill 7 "123").length = max 7 ("123" : String).length
    ∧ pyZfill 7 "12345678" = "12345678"
    ∧ pyZfill 7 "123" = ⟨List.replicate (7 - ("123" : String).length) '0' ++ ("123" : String).data⟩
    ∧ _coerce_field { name := "a", type := "string", logicalType := some "zeroPad7" }
        [("a", ⟨Dtype.dstring, [some (.vstr " -1 ")]⟩)] =
      (dfSet [("a", ⟨Dtype.dstring, [some (.vstr " -1 ")]⟩)] "a"
        ⟨Dtype.dstring, [some " -1 "].map (Option.map (fun t => Val.vstr (pyZfill 7 (pyStrip t))))⟩,
       none) := by
  refine ⟨claim_c6_amended.1 "123", claim_c6_amended.2.1 "12345678" (by decide),
    claim_c6_amended.2.2.1 "123" (by decide) (by decide) (by decide),
    claim_c6_amended.2.2.2.2 "a" [some " -1 "]
      [("a", ⟨Dtype.dstring, [some (.vstr " -1 ")]⟩)] rfl⟩

/-- Setting an index back to the value it already holds leaves a list
unchanged. -/
theorem set_getD_of_lt {α : Type} : ∀ (l : List α) (n : Nat) (d : α), n < l.length →
    l.set n (l.getD n d) = l
  | [], n, d => by intro h; cases h
  | a :: t, 0, d => by intro _; simp [List.getD]
  | a :: t, n + 1, d => by
      intro h
      simp only [List.set, List.getD_cons_succ]
      rw [set_getD_of_lt t n d (Nat.lt_of_succ_lt_succ h)]

/-- The heap-level coercion loop only ever writes the copy's address `b`:
it equals updating `b` with the pure loop's result. -/
theorem coerceHeapLoop_spec : ∀ (fields : List Field) (h : List DataFrame) (b : Nat)
    (errs : List String), b < h.length →
    coerceHeapLoop fields h b errs =
      (h.set b (coerceLoop fields (h.getD b []) errs).1,
       (coerceLoop fields (h.getD b []) errs).2)
  | [], h, b, errs => by
      intro hb
      simp only [coerceHeapLoop, coerceLoop]
      rw [set_getD_of_lt h b [] hb]
  | f :: rest, h, b, errs => by
      intro hb
      rcases hfe : _coerce_field f (h.getD b []) with ⟨df2, err⟩
      have hb2 : b < (h.set b df2).length := by simpa using hb
      have hg : (h.set b df2).getD b [] = df2 := by
        simp [List.getD, List.getElem?_set_self, hb]
      cases err with
      | none =>
          have ih := coerceHeapLoop_spec rest (h.set b df2) b errs hb2
          simp only [coerceHeapLoop, coerceLoop, hfe]
          rw [ih, hg, List.set_set]
      | some e =>
          have ih := coerceHeapLoop_spec rest (h.set b df2) b
            (errs ++ ["[coerce] " ++ f.name ++ ": " ++ e]) hb2
          simp only [coerceHeapLoop, coerceLoop, hfe]
          rw [ih, hg, List.set_set]

/-- CLAIM C10. Coercion never mutates its input DataFrame: at the heap
level, `df.copy()` allocates a fresh object and every column write of the
loop targets the copy, so the object at the caller's address is unchanged
— both on success and on the aggregated-error path — and on success the
returned handle is a different address holding the coerced copy. -/
theorem claim_c10_no_mutation : ∀ (h : List DataFrame) (a : Nat) (schema : Schema),
    a < h.length →
    ((_coerce_types_heap h a schema).1.get? a = h.get? a)
    ∧ (∀ b, (_coerce_types_heap h a schema).2 = .ok b →
        b = h.length ∧ b ≠ a ∧
        (_coerce_types_heap h a schema).1.get? b =
          some ((coerceLoop schema.fields (h.getD a []) []).1)) := by
  intro h a schema ha
  have hlen : h.length < (h ++ [h.getD a []]).length := by simp
  have hspec := coerceHeapLoop_spec schema.fields (h ++ [h.getD a []]) h.length [] hlen
  have hgd : (h ++ [h.getD a []]).getD h.length [] = h.getD a [] := by
    simp [List.getD, List.getElem?_concat_length]
  rw [hgd] at hspec
  have hget : ∀ X, ((h ++ [h.getD a []]).set h.length X).get? a = h.get? a := by
    intro X
    simp only [List.get?_eq_getElem?]
    rw [List.getElem?_set_ne (by omega)]
    rw [List.getElem?_append_left (by omega)]
  have hgetb : ∀ X, ((h ++ [h.getD a []]).set h.length X).get? h.length = some X := by
    intro X
    simp [List.get?_eq_getElem?, List.getElem?_set_self, hlen]
  constructor
  · simp only [_coerce_types_heap, hspec]
    by_cases hcase : (coerceLoop schema.fields (h.getD a []) []).2.isEmpty
    · rw [if_pos hcase]
      exact hget _
    · rw [if_neg hcase]
      exact hget _
  · intro b hb
    simp only [_coerce_types_heap, hspec] at hb ⊢
    by_cases hcase : (coerceLoop schema.fields (h.getD a []) []).2.isEmpty
    · rw [if_pos hcase] at hb ⊢
      cases hb
      exact ⟨rfl, by omega, hgetb _⟩
    · rw [if_neg hcase] at hb
      cases hb

/-- Witness for C10: a one-object heap; coercing through address 0 leaves
the object at 0 untouched and returns the fresh address 1 holding the
coerced copy. -/
theorem claim_c10_witness :
    ((_coerce_types_heap [[("a", (⟨Dtype.dstring, [some (.vstr "x")]⟩ : Series))]] 0
        ⟨[{ name := "a", type := "string" }], []⟩).1.get? 0 =
      [[("a", (⟨Dtype.dstring, [some (.vstr "x")]⟩ : Series))]].get? 0)
    ∧ (1 = [[("a", (⟨Dtype.dstring, [some (.vstr "x")]⟩ : Series))]].length ∧ (1 : Nat) ≠ 0 ∧
        (_coerce_types_heap [[("a", (⟨Dtype.dstring, [some (.vstr "x")]⟩ : Series))]] 0
          ⟨[{ name := "a", type := "string" }], []⟩).1.get? 1 =
        some ((coerceLoop [{ name := "a", type := "string" }]
          ([[("a", (⟨Dtype.dstring, [some (.vstr "x")]⟩ : Series))]].getD 0 []) []).1)) := by
  refine ⟨(claim_c10_no_mutation [[("a", (⟨Dtype.dstring, [some (.vstr "x")]⟩ : Series))]] 0
      ⟨[{ name := "a", type := "string" }], []⟩ (by decide)).1,
    (claim_c10_no_mutation [[("a", (⟨Dtype.dstring, [some (.vstr "x")]⟩ : Series))]] 0
      ⟨[{ name := "a", type := "string" }], []⟩ (by decide)).2 1 rfl⟩

end SchemaUtils
